import Mathlib

/-!
Verification of the synja synthesizer core against its design document.

The repository contains two parallel implementations of the engine:
the primary one in `src/*.rs` (nih-plug based, 16 voices) and a legacy
one in `src/synth/*.rs` (vst based, 8 voices).  Definitions below are
shallow embeddings of the Rust source: `f32`/`f64` values that only flow
through field arithmetic and transcendental functions are modelled as
real numbers; `f64` note-event timestamps, which the voice allocator
only copies and compares, are modelled as rationals so that the
allocator is executable; machine integers are modelled as `Nat`/`Int`.
-/

namespace Synja

/-! ## ADSR envelope (`src/envelope.rs`) -/

/-- Envelope state, from `enum State` in `src/envelope.rs`. -/
inductive EnvState where
  | Idle
  | Attacking
  | Decaying
  | Sustaining
  | Releasing
deriving DecidableEq, Repr

/-- The raw envelope parameters, from `struct Adsr` in `src/envelope.rs`. -/
structure Adsr where
  attack_rate : ℝ
  decay_rate : ℝ
  sustain_level : ℝ
  release_rate : ℝ

/-- Envelope generator state, from `struct AdsrEnvelope` in `src/envelope.rs`.
`Instant` timestamps are modelled as real numbers. -/
structure AdsrEnvelope where
  voice_id : ℤ
  state : EnvState
  level : ℝ
  start_time : Option ℝ
  params : Adsr
  attack_coeff : ℝ
  decay_coeff : ℝ
  release_coeff : ℝ
  attack_base : ℝ
  decay_base : ℝ
  release_base : ℝ
  target_ratio_a : ℝ
  target_ratio_dr : ℝ

/-- `AdsrEnvelope::new`. -/
def AdsrEnvelope.new (voice_id : ℤ) : AdsrEnvelope where
  voice_id := voice_id
  state := .Idle
  start_time := none
  level := 0
  params := { attack_rate := 0, decay_rate := 0, sustain_level := 0, release_rate := 0 }
  attack_coeff := 0
  decay_coeff := 0
  release_coeff := 0
  attack_base := 0
  decay_base := 0
  release_base := 0
  target_ratio_a := 0.1
  target_ratio_dr := 0.001

/-- `calc_coeff` in `src/envelope.rs`:
`if rate <= 0.0 { 0.0 } else { (-((1.0+r)/r).ln() / rate).exp() }`. -/
noncomputable def calc_coeff (rate ratio0 : ℝ) : ℝ :=
  if rate ≤ 0 then 0
  else Real.exp (-Real.log ((1 + ratio0) / ratio0) / rate)

/-- `AdsrEnvelope::set_envelope_parameters`. -/
noncomputable def AdsrEnvelope.set_envelope_parameters (e : AdsrEnvelope)
    (sample_rate attack_rate_seconds decay_rate_seconds sustain_level
     release_rate_seconds : ℝ) : AdsrEnvelope :=
  let params : Adsr :=
    { attack_rate := attack_rate_seconds, decay_rate := decay_rate_seconds
      sustain_level := sustain_level, release_rate := release_rate_seconds }
  let attack_coeff := calc_coeff (params.attack_rate * sample_rate) e.target_ratio_a
  let decay_coeff := calc_coeff (params.decay_rate * sample_rate) e.target_ratio_dr
  let release_coeff := calc_coeff (params.release_rate * sample_rate) e.target_ratio_dr
  { e with
    params := params
    attack_coeff := attack_coeff
    attack_base := (1 + e.target_ratio_a) * (1 - attack_coeff)
    decay_coeff := decay_coeff
    decay_base := (params.sustain_level - e.target_ratio_dr) * (1 - decay_coeff)
    release_coeff := release_coeff
    release_base := -e.target_ratio_dr * (1 - release_coeff) }

/-- `AdsrEnvelope::gate_on`; `Instant::now()` is passed in as `now`. -/
def AdsrEnvelope.gate_on (e : AdsrEnvelope) (now : ℝ) : AdsrEnvelope :=
  { e with start_time := some now, state := .Attacking }

/-- `AdsrEnvelope::gate_off`. -/
def AdsrEnvelope.gate_off (e : AdsrEnvelope) : AdsrEnvelope :=
  match e.state with
  | .Attacking | .Sustaining | .Decaying => { e with state := .Releasing }
  | _ => e

/-- `AdsrEnvelope::is_idle`. -/
def AdsrEnvelope.is_idle (e : AdsrEnvelope) : Bool :=
  e.state = EnvState.Idle

/-- `AdsrEnvelope::is_decaying`. -/
def AdsrEnvelope.is_decaying (e : AdsrEnvelope) : Bool :=
  e.state = EnvState.Decaying

/-- `AdsrEnvelope::process`, returning the updated envelope. -/
noncomputable def AdsrEnvelope.process (e : AdsrEnvelope) : AdsrEnvelope :=
  match e.state with
  | .Attacking =>
      let level := e.attack_base + e.level * e.attack_coeff
      if 1 ≤ level then { e with level := 1, state := .Decaying }
      else { e with level := level }
  | .Decaying =>
      let level := e.decay_base + e.level * e.decay_coeff
      if level ≤ e.params.sustain_level then
        { e with level := e.params.sustain_level, state := .Sustaining }
      else { e with level := level }
  | .Releasing =>
      let level := e.release_base + e.level * e.release_coeff
      if level ≤ 0 then { e with level := 0, state := .Idle, start_time := none }
      else { e with level := level }
  | _ => e

/-- `AdsrEnvelope::next`: process, then return the level. -/
noncomputable def AdsrEnvelope.next (e : AdsrEnvelope) : AdsrEnvelope × ℝ :=
  let e' := e.process
  (e', e'.level)

/-- Per-sample update while attacking, before the snap test. -/
noncomputable def AdsrEnvelope.attackUpdate (e : AdsrEnvelope) : ℝ :=
  e.attack_base + e.level * e.attack_coeff

/-- Per-sample update while decaying, before the snap test. -/
noncomputable def AdsrEnvelope.decayUpdate (e : AdsrEnvelope) : ℝ :=
  e.decay_base + e.level * e.decay_coeff

/-- Per-sample update while releasing, before the snap test. -/
noncomputable def AdsrEnvelope.releaseUpdate (e : AdsrEnvelope) : ℝ :=
  e.release_base + e.level * e.release_coeff

/-! ## Pitch conversion (`src/midi.rs`) -/

def A4_PITCH : ℝ := 69

def A4_FREQ : ℝ := 440

def PITCH_TABLE_SIZE : ℕ := 512

def POW2_TABLE_SIZE : ℕ := 1001

/-- Truncation toward zero, modelling Rust `as i32` on a float. -/
noncomputable def truncToInt (x : ℝ) : ℤ := if 0 ≤ x then ⌊x⌋ else ⌈x⌉

/-- Saturating cast of a float to `usize` (negative values go to 0). -/
noncomputable def truncToNat (x : ℝ) : ℕ := (⌊x⌋).toNat

/-- The `PITCH` table: entry `i` is `2^((i-256)/12)`, from the
initialisation loop `arr[i] = (1.0/12.0*(i as i32-256) as f32).exp2()`. -/
noncomputable def PITCH (i : ℕ) : ℝ :=
  (2 : ℝ) ^ ((1 / 12 : ℝ) * (((i : ℤ) - 256 : ℤ) : ℝ))

/-- The `POW2` table: entry `i` is `2^(i/12/1000)`, from the loop
`arr[i] = (i as f32 / 12.0 / 1000.0).exp2()`. -/
noncomputable def POW2 (i : ℕ) : ℝ :=
  (2 : ℝ) ^ ((i : ℝ) / 12 / 1000)

/-- `midi_pitch_to_freq` in `src/midi.rs` (the fast table lookup). -/
noncomputable def midi_pitch_to_freq (pitch : ℝ) : ℝ :=
  let pitch_int : ℤ := truncToInt pitch
  let a : ℝ := (pitch - (pitch_int : ℝ)) * 1000
  let e : ℤ := pitch_int + 256
  let pow2idx : ℕ := truncToNat a
  let pow2frac : ℝ := a - (pow2idx : ℝ)
  let p : ℝ := PITCH (min (max (e - 69) 0) ((PITCH_TABLE_SIZE : ℤ) - 1)).toNat
  let pow2 : ℝ := (1 - pow2frac) * POW2 pow2idx + pow2frac * POW2 (pow2idx + 1)
  A4_FREQ * p * pow2

/-- `midi_pitch_to_freq_slow`: the exact form `2^((pitch-69)/12) * 440`. -/
noncomputable def midi_pitch_to_freq_slow (pitch : ℝ) : ℝ :=
  (2 : ℝ) ^ ((pitch - A4_PITCH) / 12) * A4_FREQ

/-! ## Oscillator (`src/synth/oscillator.rs`)

The band-limited step kernel lives in `blep.rs`, which is not among the
available sources.  Modelled from the spec: the spec describes it only
as a process-wide immutable band-limited-step kernel table, so the
kernel data `blepData`, its length `blepLen`, and the per-sample stride
`ktable` (64 according to the comments in `oscillator.rs`) are taken as
explicit parameters wherever the oscillator needs them. -/

/-- Waveform selector, from `enum WaveForm` in `src/synth/oscillator.rs`. -/
inductive WaveForm where
  | Saw
  | Square
  | Sine
  | UnipolarSquare
  | Triangle
deriving DecidableEq, Repr

/-- Oscillator state: the pending-correction ring buffer, its write
cursor `i_buffer`, the count `n_init` of still-dirty samples, and the
phase accumulator. -/
structure Oscillator where
  buffer : List ℝ
  i_buffer : ℕ
  n_init : ℕ
  phase : ℝ

/-- `lerp` in `src/synth/oscillator.rs`. -/
def lerp (a b frac : ℝ) : ℝ := (b - a) * frac + a

/-- `Oscillator::new`; the random initial phase drawn from
`rand::thread_rng().gen()` (uniform in `[0,1)`) is passed in, and
`bufLen` is the buffer capacity `BLEPLEN / KTABLE`. -/
def Oscillator.new (bufLen : ℕ) (randPhase : ℝ) : Oscillator where
  phase := randPhase
  buffer := List.replicate bufLen 0
  i_buffer := 0
  n_init := 0

/-- `Oscillator::trig`: reset the phase to 0. -/
def Oscillator.trig (osc : Oscillator) : Oscillator := { osc with phase := 0 }

/-- `Oscillator::set_phase` (used by `Voice::note_on` to seed unison
phases). -/
def Oscillator.set_phase (osc : Oscillator) (p : ℝ) : Oscillator := { osc with phase := p }

/-- The `// Add` loop of `Oscillator::add_blep`: blend `amp * (1 - f)`
onto the pending buffer slots.  Returns the buffer and the two running
indices. -/
def addBlepAddLoop (ktable : ℕ) (blepData : ℕ → ℝ) :
    ℕ → List ℝ → ℕ → ℕ → ℝ → ℝ → List ℝ × ℕ × ℕ
  | 0, buffer, outIdx, inIdx, _, _ => (buffer, outIdx, inIdx)
  | n + 1, buffer, outIdx, inIdx, frac, amp =>
      let outIdx := if buffer.length ≤ outIdx then 0 else outIdx
      let f : ℝ := lerp (blepData inIdx) (blepData (inIdx + 1)) frac
      addBlepAddLoop ktable blepData n
        (buffer.set outIdx (buffer.getD outIdx 0 + amp * (1 - f)))
        (outIdx + 1) (inIdx + ktable) frac amp

/-- The `// Copy` loop of `Oscillator::add_blep`: overwrite the
remaining slots with `amp * (1 - f)`. -/
def addBlepCopyLoop (ktable : ℕ) (blepData : ℕ → ℝ) :
    ℕ → List ℝ → ℕ → ℕ → ℝ → ℝ → List ℝ × ℕ × ℕ
  | 0, buffer, outIdx, inIdx, _, _ => (buffer, outIdx, inIdx)
  | n + 1, buffer, outIdx, inIdx, frac, amp =>
      let outIdx := if buffer.length ≤ outIdx then 0 else outIdx
      let f : ℝ := lerp (blepData inIdx) (blepData (inIdx + 1)) frac
      addBlepCopyLoop ktable blepData n
        (buffer.set outIdx (amp * (1 - f)))
        (outIdx + 1) (inIdx + ktable) frac amp

/-- `Oscillator::add_blep`. -/
noncomputable def Oscillator.add_blep (ktable blepLen : ℕ) (blepData : ℕ → ℝ)
    (osc : Oscillator) (offset amp : ℝ) : Oscillator :=
  let inIdx : ℕ := truncToNat ((ktable : ℝ) * offset)
  let frac : ℝ := (ktable : ℝ) * offset - ((truncToInt ((ktable : ℝ) * offset) : ℤ) : ℝ)
  let c_blep : ℕ := blepLen / ktable - 1
  let r1 := addBlepAddLoop ktable blepData osc.n_init osc.buffer osc.i_buffer inIdx frac amp
  let r2 := addBlepCopyLoop ktable blepData (c_blep - osc.n_init) r1.1 r1.2.1 r1.2.2 frac amp
  { osc with buffer := r2.1, n_init := c_blep }

/-- `Oscillator::generate`.  Returns the updated oscillator and the
output sample. -/
noncomputable def Oscillator.generate (ktable blepLen : ℕ) (blepData : ℕ → ℝ)
    (osc : Oscillator) (waveform : WaveForm) (freq amplitude : ℝ)
    (pulse_width : ℝ) (sample_rate : ℝ) : Oscillator × ℝ :=
  if freq ≤ 0 then (osc, 0)
  else
    let dp : ℝ := freq / sample_rate
    let oscA : Oscillator := { osc with phase := osc.phase + dp }
    let step : Oscillator × ℝ :=
      match waveform with
      | .Saw =>
          let oscB :=
            if 1 < oscA.phase then
              Oscillator.add_blep ktable blepLen blepData
                { oscA with phase := oscA.phase - 1 } ((oscA.phase - 1) / dp) 1
            else oscA
          (oscB, oscB.phase)
      | .Sine =>
          let oscB := if 1 < oscA.phase then { oscA with phase := oscA.phase - 1 } else oscA
          (oscB, Real.sin (2 * Real.pi * oscB.phase))
      | .Square =>
          let oscB :=
            if pulse_width < oscA.phase ∧ oscA.phase - dp ≤ pulse_width then
              Oscillator.add_blep ktable blepLen blepData
                oscA ((oscA.phase - pulse_width) / dp) 1
            else if 1 < oscA.phase then
              Oscillator.add_blep ktable blepLen blepData
                { oscA with phase := oscA.phase - 1 } ((oscA.phase - 1) / dp) (-1)
            else oscA
          (oscB, if 0 < oscB.phase ∧ oscB.phase ≤ pulse_width then 1 else 0)
      | .UnipolarSquare =>
          let oscB := if 1 < oscA.phase then { oscA with phase := oscA.phase - 1 } else oscA
          (oscB, if 0 < oscB.phase ∧ oscB.phase ≤ 0.5 then 1 else 0)
      | .Triangle =>
          let oscB := if 1 < oscA.phase then { oscA with phase := oscA.phase - 1 } else oscA
          (oscB, if 0.5 < oscB.phase then 2 - 2 * oscB.phase else 2 * oscB.phase)
    let oscB := step.1
    let wave := step.2
    match waveform with
    | .Sine => (oscB, wave * amplitude)
    | .Triangle => (oscB, (2 * wave - 1) * amplitude)
    | .UnipolarSquare => (oscB, wave * amplitude)
    | _ =>
        let popped : Oscillator × ℝ :=
          if 0 < oscB.n_init then
            let blep := oscB.buffer.getD oscB.i_buffer 0
            let iNext := oscB.i_buffer + 1
            ({ oscB with n_init := oscB.n_init - 1,
                         i_buffer := if oscB.buffer.length ≤ iNext then 0 else iNext }, blep)
          else (oscB, 0)
        let sample := wave + popped.2
        (popped.1, amplitude * (2 * sample - 1))

/-! ## Ladder filter, primary variant (`src/huovilainen.rs`) -/

def THERMAL : ℝ := 0.000025

/-- The polynomial/rational `tanh` approximation at the bottom of
`src/huovilainen.rs`. -/
noncomputable def tanhApprox (x : ℝ) : ℝ :=
  let x2 := x * x
  let x3 := x2 * x
  let x5 := x3 * x2
  let a := x + 0.16489087 * x3 + 0.00985468 * x5
  a / Real.sqrt (1 + a * a)

/-- `HuovilainenMoog` state (primary variant, with the coefficient
cache keys `coeff_cutoff` / `coeff_resonance`).  The Rust arrays
`stage[4]`, `stage_tanh[3]`, `delay[6]` are unrolled into named
fields. -/
structure HuovilainenMoog where
  stage0 : ℝ
  stage1 : ℝ
  stage2 : ℝ
  stage3 : ℝ
  stage_tanh0 : ℝ
  stage_tanh1 : ℝ
  stage_tanh2 : ℝ
  delay0 : ℝ
  delay1 : ℝ
  delay2 : ℝ
  delay3 : ℝ
  delay4 : ℝ
  delay5 : ℝ
  tune : ℝ
  acr : ℝ
  res_quad : ℝ
  coeff_cutoff : ℝ
  coeff_resonance : ℝ

/-- `HuovilainenMoog::new` (primary variant). -/
def HuovilainenMoog.new : HuovilainenMoog where
  stage0 := 0
  stage1 := 0
  stage2 := 0
  stage3 := 0
  stage_tanh0 := 0
  stage_tanh1 := 0
  stage_tanh2 := 0
  delay0 := 0
  delay1 := 0
  delay2 := 0
  delay3 := 0
  delay4 := 0
  delay5 := 0
  tune := 0
  acr := 0
  res_quad := 0
  coeff_cutoff := 0
  coeff_resonance := 0

/-- `HuovilainenMoog::compute_coeffs` (primary variant): early-returns
when `(cutoff, resonance)` equals the cached pair, otherwise recomputes
`tune`, `acr`, `res_quad` and refreshes the cache keys. -/
noncomputable def HuovilainenMoog.compute_coeffs (m : HuovilainenMoog)
    (cutoff resonance sample_rate : ℝ) : HuovilainenMoog :=
  if m.coeff_cutoff = cutoff ∧ m.coeff_resonance = resonance then m
  else
    let total_cutoff : ℝ := min (max cutoff 0) (sample_rate / 2)
    let fc := total_cutoff / sample_rate
    let f := fc * 0.5
    let fc2 := fc * fc
    let fc3 := fc * fc * fc
    let fcr := 1.8730 * fc3 + 0.4955 * fc2 - 0.6490 * fc + 0.9988
    let acr := -3.9364 * fc2 + 1.8409 * fc + 0.9968
    let tune := (1 - Real.exp (-(2 * Real.pi * f * fcr))) / THERMAL
    { m with acr := acr, tune := tune, res_quad := 4 * resonance * acr,
             coeff_cutoff := cutoff, coeff_resonance := resonance }

/-- One iteration of the 2×-oversampling loop in
`HuovilainenMoog::process` (primary variant), with the `for k in 1..4`
stage loop unrolled. -/
noncomputable def HuovilainenMoog.oversample (m : HuovilainenMoog) (in_sample : ℝ) :
    HuovilainenMoog :=
  let input := in_sample - m.res_quad * m.delay5
  let stage0 := m.delay0 + m.tune * (tanhApprox (input * THERMAL) - m.stage_tanh0)
  let delay0 := stage0
  let stage_tanh0 := tanhApprox (stage0 * THERMAL)
  let stage1 := m.delay1 + m.tune * (stage_tanh0 - m.stage_tanh1)
  let delay1 := stage1
  let stage_tanh1 := tanhApprox (stage1 * THERMAL)
  let stage2 := m.delay2 + m.tune * (stage_tanh1 - m.stage_tanh2)
  let delay2 := stage2
  let stage_tanh2 := tanhApprox (stage2 * THERMAL)
  let stage3 := m.delay3 + m.tune * (stage_tanh2 - tanhApprox (m.delay3 * THERMAL))
  let delay3 := stage3
  let delay5 := (stage3 + m.delay4) * 0.5
  let delay4 := stage3
  { m with stage0 := stage0, stage1 := stage1, stage2 := stage2, stage3 := stage3,
           stage_tanh0 := stage_tanh0, stage_tanh1 := stage_tanh1, stage_tanh2 := stage_tanh2,
           delay0 := delay0, delay1 := delay1, delay2 := delay2, delay3 := delay3,
           delay4 := delay4, delay5 := delay5 }

/-- `HuovilainenMoog::process` (primary variant): recompute/cache the
coefficients, run the oversampling loop twice, output `delay[5]`. -/
noncomputable def HuovilainenMoog.process (m : HuovilainenMoog)
    (in_sample sample_rate cutoff resonance : ℝ) : HuovilainenMoog × ℝ :=
  let m1 := m.compute_coeffs cutoff resonance sample_rate
  let m2 := m1.oversample in_sample
  let m3 := m2.oversample in_sample
  (m3, m3.delay5)

end Synja

namespace SynjaLegacy

open Synja (EnvState Adsr AdsrEnvelope WaveForm Oscillator THERMAL)

/-! ## Ladder filter, legacy variant (`src/synth/huovilainen.rs`)

Identical filter core, but `compute_coeffs` has no cache guard (it
recomputes on every `process` call) and `tanh` is the exact
transcendental. -/

/-- `HuovilainenMoog` state (legacy variant: no cache keys). -/
structure HuovilainenMoog where
  stage0 : ℝ
  stage1 : ℝ
  stage2 : ℝ
  stage3 : ℝ
  stage_tanh0 : ℝ
  stage_tanh1 : ℝ
  stage_tanh2 : ℝ
  delay0 : ℝ
  delay1 : ℝ
  delay2 : ℝ
  delay3 : ℝ
  delay4 : ℝ
  delay5 : ℝ
  tune : ℝ
  acr : ℝ
  res_quad : ℝ

/-- `HuovilainenMoog::new` (legacy variant). -/
def HuovilainenMoog.new : HuovilainenMoog where
  stage0 := 0
  stage1 := 0
  stage2 := 0
  stage3 := 0
  stage_tanh0 := 0
  stage_tanh1 := 0
  stage_tanh2 := 0
  delay0 := 0
  delay1 := 0
  delay2 := 0
  delay3 := 0
  delay4 := 0
  delay5 := 0
  tune := 0
  acr := 0
  res_quad := 0

/-- `HuovilainenMoog::compute_coeffs` (legacy variant): always
recomputes. -/
noncomputable def HuovilainenMoog.compute_coeffs (m : HuovilainenMoog)
    (cutoff resonance sample_rate : ℝ) : HuovilainenMoog :=
  let total_cutoff : ℝ := min (max cutoff 0) (sample_rate / 2)
  let fc := total_cutoff / sample_rate
  let f := fc * 0.5
  let fc2 := fc * fc
  let fc3 := fc * fc * fc
  let fcr := 1.8730 * fc3 + 0.4955 * fc2 - 0.6490 * fc + 0.9988
  let acr := -3.9364 * fc2 + 1.8409 * fc + 0.9968
  let tune := (1 - Real.exp (-(2 * Real.pi * f * fcr))) / THERMAL
  { m with acr := acr, tune := tune, res_quad := 4 * resonance * acr }

/-- One iteration of the 2×-oversampling loop in the legacy
`HuovilainenMoog::process`, stage loop unrolled (`tanh` exact). -/
noncomputable def HuovilainenMoog.oversample (m : HuovilainenMoog) (in_sample : ℝ) :
    HuovilainenMoog :=
  let input := in_sample - m.res_quad * m.delay5
  let stage0 := m.delay0 + m.tune * (Real.tanh (input * THERMAL) - m.stage_tanh0)
  let delay0 := stage0
  let stage_tanh0 := Real.tanh (stage0 * THERMAL)
  let stage1 := m.delay1 + m.tune * (stage_tanh0 - m.stage_tanh1)
  let delay1 := stage1
  let stage_tanh1 := Real.tanh (stage1 * THERMAL)
  let stage2 := m.delay2 + m.tune * (stage_tanh1 - m.stage_tanh2)
  let delay2 := stage2
  let stage_tanh2 := Real.tanh (stage2 * THERMAL)
  let stage3 := m.delay3 + m.tune * (stage_tanh2 - Real.tanh (m.delay3 * THERMAL))
  let delay3 := stage3
  let delay5 := (stage3 + m.delay4) * 0.5
  let delay4 := stage3
  { m with stage0 := stage0, stage1 := stage1, stage2 := stage2, stage3 := stage3,
           stage_tanh0 := stage_tanh0, stage_tanh1 := stage_tanh1, stage_tanh2 := stage_tanh2,
           delay0 := delay0, delay1 := delay1, delay2 := delay2, delay3 := delay3,
           delay4 := delay4, delay5 := delay5 }

/-- `HuovilainenMoog::process` (legacy variant): unconditional
`compute_coeffs`, two oversampling iterations, output `delay[5]`. -/
noncomputable def HuovilainenMoog.process (m : HuovilainenMoog)
    (in_sample sample_rate cutoff resonance : ℝ) : HuovilainenMoog × ℝ :=
  let m1 := m.compute_coeffs cutoff resonance sample_rate
  let m2 := m1.oversample in_sample
  let m3 := m2.oversample in_sample
  (m3, m3.delay5)

end SynjaLegacy

namespace Synja

/-! ## Envelope-change bitmask (`src/lib.rs`, `src/voice.rs`)

The shared `Arc<AtomicU16>` `env_chg`: one bit per voice.  Every
envelope-rate/sustain parameter callback stores `0xFFFF`; each voice's
`generate` does `fetch_and(!bit)` and recomputes its envelopes iff its
bit was set in the fetched (old) value. -/

/-- `1u16 << id`. -/
def envBit (id : ℕ) : ℕ := 1 <<< id

/-- The initial mask `AtomicU16::new(0b1111_1111_1111_1111)` and the
value stored by the `env_time_param` / `env_gain_param` callbacks. -/
def ENV_CHG_ALL : ℕ := 0xFFFF

/-- Effect on the shared mask of a write to an envelope rate/sustain
parameter: the callbacks run `env_chg.store(0xFFFF, Relaxed)`. -/
def envParamWrite (_mask : ℕ) : ℕ := ENV_CHG_ALL

/-- `self.env_chg.fetch_and(bit.not(), Relaxed)` for voice `id`:
returns the old mask and stores `old AND NOT bit` (`u16` complement). -/
def envFetchAndClear (mask : ℕ) (id : ℕ) : ℕ × ℕ :=
  (mask, mask &&& (ENV_CHG_ALL ^^^ envBit id))

/-- The recompute test in `Voice::generate`:
`fetch_and(bit.not()) & bit == bit`. -/
def envRecomputes (mask : ℕ) (id : ℕ) : Bool :=
  (envFetchAndClear mask id).1 &&& envBit id == envBit id

/-- Events touching the shared mask: a parameter write (from any
envelope rate/sustain callback) or a render of voice `id`. -/
inductive EnvChgEvent where
  | paramWrite
  | render (id : ℕ)
deriving DecidableEq, Repr

/-- Mask after one event. -/
def envChgStep (mask : ℕ) : EnvChgEvent → ℕ
  | .paramWrite => envParamWrite mask
  | .render id => (envFetchAndClear mask id).2

/-- Mask after a sequence of events. -/
def envChgRun (mask : ℕ) (evs : List EnvChgEvent) : ℕ :=
  evs.foldl envChgStep mask

/-! ## Voice (`src/voice.rs`) and voice allocation (`src/lib.rs`) -/

def MAX_UNISON : ℕ := 7

def NUM_VOICES : ℕ := 16

/-- `Voice` (primary variant).  The shared `env_change` mask is modelled
at the trace level above rather than as a per-voice field; event
timestamps (`f64`, only copied and compared by the allocator) are
rationals. -/
structure Voice where
  sample_rate : ℝ
  id : ℤ
  target_note : ℕ
  note : ℝ
  bend : ℝ
  velocity : ℕ
  start_time : ℚ
  unison : ℕ
  osc1 : List Oscillator
  osc2 : List Oscillator
  lfo : Oscillator
  filterL : HuovilainenMoog
  filterR : HuovilainenMoog
  amp_envelope : AdsrEnvelope
  filter_envelope : AdsrEnvelope

/-- `Voice::new` (primary variant); the `bufLen` and fresh random
phases feed the `Oscillator::new` calls. -/
def Voice.new (id : ℤ) (sample_rate : ℝ) (bufLen : ℕ) (fresh1 fresh2 : ℕ → ℝ)
    (freshLfo : ℝ) : Voice where
  sample_rate := sample_rate
  id := id
  target_note := 0
  note := 0
  bend := 0
  velocity := 0
  start_time := 0
  unison := 1
  osc1 := (List.range MAX_UNISON).map (fun k => Oscillator.new bufLen (fresh1 k))
  osc2 := (List.range MAX_UNISON).map (fun k => Oscillator.new bufLen (fresh2 k))
  lfo := Oscillator.new bufLen freshLfo
  filterL := HuovilainenMoog.new
  filterR := HuovilainenMoog.new
  amp_envelope := AdsrEnvelope.new id
  filter_envelope := AdsrEnvelope.new id

/-- `Voice::note_on` (primary variant, `src/voice.rs`): seed the
carrier-1 phases, store note/velocity/timestamp/unison, conditionally
retrigger the LFO, gate both envelopes on (`Instant::now()` passed as
`now`). -/
def Voice.note_on (v : Voice) (note velocity : ℕ) (time : ℚ) (unison : ℕ)
    (lfo_trig : Bool) (start_phases : ℕ → ℝ) (now : ℝ) : Voice :=
  { v with
    osc1 := v.osc1.mapIdx (fun i o => o.set_phase (start_phases i))
    target_note := note
    lfo := if lfo_trig then v.lfo.trig else v.lfo
    unison := unison
    velocity := velocity
    start_time := time
    amp_envelope := v.amp_envelope.gate_on now
    filter_envelope := v.filter_envelope.gate_on now }

/-- `Voice::note_off`. -/
def Voice.note_off (v : Voice) : Voice :=
  { v with
    amp_envelope := v.amp_envelope.gate_off
    filter_envelope := v.filter_envelope.gate_off }

/-- `Voice::is_playing`: the amplitude envelope is not idle. -/
def Voice.is_playing (v : Voice) : Bool :=
  !v.amp_envelope.is_idle

/-- The envelope-parameter portion of `Voice::generate` (`src/voice.rs`
lines 158–175): atomically test-and-clear this voice's bit in the
shared mask and recompute both envelopes iff the bit was set.  The
eight current parameter values are passed in. -/
noncomputable def Voice.generateEnvUpdate (v : Voice) (mask : ℕ)
    (a d s r fa fd fs fr : ℝ) : Voice × ℕ :=
  let fetched := envFetchAndClear mask v.id.toNat
  if fetched.1 &&& envBit v.id.toNat = envBit v.id.toNat then
    ({ v with
        amp_envelope := v.amp_envelope.set_envelope_parameters v.sample_rate a d s r
        filter_envelope :=
          v.filter_envelope.set_envelope_parameters v.sample_rate fa fd fs fr },
     fetched.2)
  else (v, fetched.2)

/-- `f64::MAX`, the sentinel used by the allocation scan. -/
def f64MAX : ℚ := 2 ^ 1024 - 2 ^ 971

/-- The four scan accumulators of `Synth::note_on`. -/
structure ScanAcc where
  oldest_playing_voice : ℕ
  oldest_playing_time : ℚ
  oldest_decaying_voice : Option ℕ
  oldest_decaying_time : ℚ

/-- The initial accumulators declared at the top of `Synth::note_on`. -/
def ScanAcc.init : ScanAcc where
  oldest_playing_voice := 0
  oldest_playing_time := f64MAX
  oldest_decaying_voice := none
  oldest_decaying_time := f64MAX

/-- The `else` body of the loop in `Synth::note_on`: update the
oldest-decaying and oldest-playing trackers with voice `i`. -/
def ScanAcc.step (acc : ScanAcc) (i : ℕ) (decaying : Bool) (start : ℚ) : ScanAcc :=
  let acc1 :=
    if decaying ∧ start < acc.oldest_decaying_time then
      { acc with oldest_decaying_voice := some i, oldest_decaying_time := start }
    else acc
  if start < acc1.oldest_playing_time then
    { acc1 with oldest_playing_voice := i, oldest_playing_time := start }
  else acc1

/-- The `for i in 0..N` loop of `Synth::note_on` over the (remaining)
voices, starting at index `i`: return the first non-playing index
(`.inr`, the early `return` path) or the final accumulators (`.inl`). -/
def scanLoop (playing decaying : ℕ → Bool) (start : ℕ → ℚ) :
    List ℕ → ScanAcc → ScanAcc ⊕ ℕ
  | [], acc => .inl acc
  | i :: rest, acc =>
      if !playing i then .inr i
      else scanLoop playing decaying start rest (acc.step i (decaying i) (start i))

/-- The voice index on which the tail of `Synth::note_on` invokes
`Voice::note_on`, given the scan's outcome: the first idle voice if the
loop early-returned, else the oldest decaying voice if one exists, else
the oldest playing voice. -/
def stealTarget (acc : ScanAcc) : ℕ :=
  match acc.oldest_decaying_voice with
  | some v => v
  | none => acc.oldest_playing_voice

/-- `Synth::note_on` (primary variant, `src/lib.rs`), returning the
updated voice list.  `mono` is the source's hard-wired `let mono =
false;` but is kept as written: the mono branch retriggers voice 0 and
then falls through to the steal `match` with the untouched initial
accumulators.  `args` abbreviates the payload forwarded to every
`Voice::note_on` call. -/
def Synth.note_on (voices : List Voice) (note velocity : ℕ) (time : ℚ)
    (unison : ℕ) (lfo_trig : Bool) (start_phases : ℕ → ℝ) (now : ℝ) : List Voice :=
  let doNoteOn : List Voice → ℕ → List Voice := fun vs i =>
    match vs.get? i with
    | some v => vs.set i (v.note_on note velocity time unison lfo_trig start_phases now)
    | none => vs
  let mono := false
  if mono then
    let voices1 := doNoteOn voices 0
    doNoteOn voices1 (stealTarget ScanAcc.init)
  else
    match scanLoop (fun i => ((voices.get? i).map Voice.is_playing).getD true)
        (fun i => ((voices.get? i).map (fun v => v.amp_envelope.is_decaying)).getD false)
        (fun i => ((voices.get? i).map Voice.start_time).getD 0)
        (List.range voices.length) ScanAcc.init with
    | .inr i => doNoteOn voices i
    | .inl acc => doNoteOn voices (stealTarget acc)

end Synja

namespace SynjaLegacy

open Synja (EnvState Adsr AdsrEnvelope WaveForm Oscillator ScanAcc scanLoop stealTarget)

/-! ## Legacy engine (`src/synth/mod.rs`, `src/synth/voice.rs`)

The legacy variant keeps 8 voices, reads its parameters through
`Smoothed` cells, and recomputes the envelope parameters on every
`Voice::generate` call (no change bitmask).  Its `AdsrEnvelope` source
(`src/synth/envelope.rs`) is not among the available sources; modelled
from the spec: the spec describes a single envelope generator design
(§4.4), so the primary `AdsrEnvelope` model is reused for it. -/

def POLYPHONY : ℕ := 8

/-- Settling factor for smoothed parameter changes (`FILTER_FACTOR`). -/
def FILTER_FACTOR : ℝ := 0.1

/-- `Smoothed` (`src/synth/mod.rs`). -/
structure Smoothed where
  state : ℝ
  target : ℝ

/-- `Smoothed::set`. -/
def Smoothed.set (s : Smoothed) (value : ℝ) : Smoothed := { s with target := value }

/-- `Smoothed::get`: advance the state toward the target and return it. -/
def Smoothed.get (s : Smoothed) : Smoothed × ℝ :=
  let state := s.state + (s.target - s.state) * FILTER_FACTOR
  ({ s with state := state }, state)

/-- `Voice` (legacy variant, `src/synth/voice.rs`): the oscillator
banks are `Vec`s recreated at note-on when the unison count changes. -/
structure Voice where
  id : ℕ
  target_note : ℕ
  note : ℝ
  bend : ℝ
  velocity : ℕ
  start_time : ℚ
  osc1 : List Oscillator
  osc2 : List Oscillator
  lfo : Oscillator
  filterL : HuovilainenMoog
  filterR : HuovilainenMoog
  amp_envelope : AdsrEnvelope
  filter_envelope : AdsrEnvelope

/-- `Voice::new` (legacy variant): empty oscillator banks. -/
def Voice.new (id : ℕ) (bufLen : ℕ) (freshLfo : ℝ) : Voice where
  id := id
  target_note := 0
  note := 0
  bend := 0
  velocity := 0
  start_time := 0
  osc1 := []
  osc2 := []
  lfo := Oscillator.new bufLen freshLfo
  filterL := HuovilainenMoog.new
  filterR := HuovilainenMoog.new
  amp_envelope := AdsrEnvelope.new id
  filter_envelope := AdsrEnvelope.new id

/-- `Voice::note_on` (legacy variant): recreate the oscillator banks if
the unison count changed (fresh oscillators draw their random phases
from `fresh1` / `fresh2`), store note/velocity/timestamp, conditionally
retrigger the LFO, gate both envelopes on. -/
def Voice.note_on (v : Voice) (note velocity : ℕ) (time : ℚ) (unison : ℕ)
    (lfo_trig : Bool) (bufLen : ℕ) (fresh1 fresh2 : ℕ → ℝ) (now : ℝ) : Voice :=
  let banks : List Oscillator × List Oscillator :=
    if v.osc1.length ≠ unison then
      ((List.range unison).map (fun k => Oscillator.new bufLen (fresh1 k)),
       (List.range unison).map (fun k => Oscillator.new bufLen (fresh2 k)))
    else (v.osc1, v.osc2)
  { v with
    osc1 := banks.1
    osc2 := banks.2
    target_note := note
    lfo := if lfo_trig then v.lfo.trig else v.lfo
    velocity := velocity
    start_time := time
    amp_envelope := v.amp_envelope.gate_on now
    filter_envelope := v.filter_envelope.gate_on now }

/-- `Voice::is_playing` (legacy variant). -/
def Voice.is_playing (v : Voice) : Bool :=
  !v.amp_envelope.is_idle

/-- `Synth::note_on` (legacy variant, `src/synth/mod.rs`).  `mono` and
`unison`/`lfo_trig` are read from the parameter store by the source;
they are passed in here.  In mono mode the loop never runs, voice 0 is
retriggered, and control falls through to the steal `match`, which —
with the untouched initial accumulators — retriggers voice 0 a second
time. -/
def Synth.note_on (voices : List Voice) (mono : Bool) (note velocity : ℕ)
    (time : ℚ) (unison : ℕ) (lfo_trig : Bool) (bufLen : ℕ)
    (fresh1 fresh2 : ℕ → ℝ) (now : ℝ) : List Voice :=
  let doNoteOn : List Voice → ℕ → List Voice := fun vs i =>
    match vs.get? i with
    | some v => vs.set i (v.note_on note velocity time unison lfo_trig bufLen fresh1 fresh2 now)
    | none => vs
  if mono then
    let voices1 := doNoteOn voices 0
    doNoteOn voices1 (stealTarget ScanAcc.init)
  else
    match scanLoop (fun i => ((voices.get? i).map Voice.is_playing).getD true)
        (fun i => ((voices.get? i).map (fun v => v.amp_envelope.is_decaying)).getD false)
        (fun i => ((voices.get? i).map Voice.start_time).getD 0)
        (List.range voices.length) ScanAcc.init with
    | .inr i => doNoteOn voices i
    | .inl acc => doNoteOn voices (stealTarget acc)

/-- The smoothed parameter cells feeding the envelope recompute in the
legacy `Voice::generate`. -/
structure EnvParamStates where
  amp_attack : Smoothed
  amp_decay : Smoothed
  amp_sustain : Smoothed
  amp_release : Smoothed
  filter_attack : Smoothed
  filter_decay : Smoothed
  filter_sustain : Smoothed
  filter_release : Smoothed

/-- The envelope-parameter portion of the legacy `Voice::generate`
(`src/synth/voice.rs` lines 138–151): unconditionally re-sample the
eight smoothed cells and call `set_envelope_parameters` on both
envelopes, on every render. -/
noncomputable def generateEnvUpdate (amp filterEnv : AdsrEnvelope) (sample_rate : ℝ)
    (st : EnvParamStates) : AdsrEnvelope × AdsrEnvelope × EnvParamStates :=
  let ra := st.amp_attack.get
  let rd := st.amp_decay.get
  let rs := st.amp_sustain.get
  let rr := st.amp_release.get
  let amp' := amp.set_envelope_parameters sample_rate ra.2 rd.2 rs.2 rr.2
  let fa := st.filter_attack.get
  let fd := st.filter_decay.get
  let fs := st.filter_sustain.get
  let fr := st.filter_release.get
  let filterEnv' := filterEnv.set_envelope_parameters sample_rate fa.2 fd.2 fs.2 fr.2
  (amp', filterEnv',
   { amp_attack := ra.1, amp_decay := rd.1, amp_sustain := rs.1, amp_release := rr.1
     filter_attack := fa.1, filter_decay := fd.1, filter_sustain := fs.1,
     filter_release := fr.1 })

end SynjaLegacy

namespace Synja

/-- A concrete voice (primary variant) with a chosen amplitude-envelope
state and start timestamp, used to exercise the allocation policy. -/
def testVoice (st : EnvState) (t : ℚ) : Voice :=
  { Voice.new 0 44100 2 (fun _ => 0) (fun _ => 0) 0 with
    start_time := t
    amp_envelope := { AdsrEnvelope.new 0 with state := st } }

end Synja

namespace SynjaLegacy

/-- A concrete voice (legacy variant) with a chosen amplitude-envelope
state and start timestamp. -/
def testVoice (st : Synja.EnvState) (t : ℚ) : Voice :=
  { Voice.new 0 2 0 with
    start_time := t
    amp_envelope := { Synja.AdsrEnvelope.new 0 with state := st } }

end SynjaLegacy

/-! # Theorems -/

namespace Synja

theorem set_params_attack_coeff (e : AdsrEnvelope) (sr a d s r : ℝ) :
    (e.set_envelope_parameters sr a d s r).attack_coeff
      = calc_coeff (a * sr) e.target_ratio_a := by
  simp [AdsrEnvelope.set_envelope_parameters]

theorem set_params_decay_coeff (e : AdsrEnvelope) (sr a d s r : ℝ) :
    (e.set_envelope_parameters sr a d s r).decay_coeff
      = calc_coeff (d * sr) e.target_ratio_dr := by
  simp [AdsrEnvelope.set_envelope_parameters]

theorem set_params_release_coeff (e : AdsrEnvelope) (sr a d s r : ℝ) :
    (e.set_envelope_parameters sr a d s r).release_coeff
      = calc_coeff (r * sr) e.target_ratio_dr := by
  simp [AdsrEnvelope.set_envelope_parameters]

theorem set_params_attack_base (e : AdsrEnvelope) (sr a d s r : ℝ) :
    (e.set_envelope_parameters sr a d s r).attack_base
      = (1 + e.target_ratio_a) * (1 - calc_coeff (a * sr) e.target_ratio_a) := by
  simp [AdsrEnvelope.set_envelope_parameters]

theorem set_params_decay_base (e : AdsrEnvelope) (sr a d s r : ℝ) :
    (e.set_envelope_parameters sr a d s r).decay_base
      = (s - e.target_ratio_dr) * (1 - calc_coeff (d * sr) e.target_ratio_dr) := by
  simp [AdsrEnvelope.set_envelope_parameters]

theorem set_params_release_base (e : AdsrEnvelope) (sr a d s r : ℝ) :
    (e.set_envelope_parameters sr a d s r).release_base
      = -e.target_ratio_dr * (1 - calc_coeff (r * sr) e.target_ratio_dr) := by
  simp [AdsrEnvelope.set_envelope_parameters]

theorem set_params_sustain (e : AdsrEnvelope) (sr a d s r : ℝ) :
    (e.set_envelope_parameters sr a d s r).params.sustain_level = s := by
  simp [AdsrEnvelope.set_envelope_parameters]

theorem set_params_state (e : AdsrEnvelope) (sr a d s r : ℝ) :
    (e.set_envelope_parameters sr a d s r).state = e.state := by
  simp [AdsrEnvelope.set_envelope_parameters]

theorem set_params_level (e : AdsrEnvelope) (sr a d s r : ℝ) :
    (e.set_envelope_parameters sr a d s r).level = e.level := by
  simp [AdsrEnvelope.set_envelope_parameters]

/-- C2: the envelope generator follows exactly the claimed state
machine: `gate_on` moves to Attacking; in Attacking an updated level
≥ 1 is snapped to exactly 1 and the state becomes Decaying; in Decaying
an updated level ≤ sustain is snapped to exactly the sustain level and
the state becomes Sustaining; `gate_off` from Attacking, Decaying or
Sustaining moves to Releasing; in Releasing an updated level ≤ 0 is
snapped to exactly 0, the state becomes Idle and the gate-on timestamp
is cleared; Idle and Sustaining perform no per-sample update. -/
theorem envelope_state_machine_spec :
    (∀ (e : AdsrEnvelope) (now : ℝ),
        e.gate_on now = { e with state := .Attacking, start_time := some now })
    ∧ (∀ e : AdsrEnvelope,
        (e.state = .Attacking ∨ e.state = .Decaying ∨ e.state = .Sustaining) →
        e.gate_off = { e with state := .Releasing })
    ∧ (∀ e : AdsrEnvelope, e.state = .Attacking →
        (1 ≤ e.attackUpdate → e.process = { e with level := 1, state := .Decaying })
        ∧ (e.attackUpdate < 1 → e.process = { e with level := e.attackUpdate }))
    ∧ (∀ e : AdsrEnvelope, e.state = .Decaying →
        (e.decayUpdate ≤ e.params.sustain_level →
          e.process = { e with level := e.params.sustain_level, state := .Sustaining })
        ∧ (e.params.sustain_level < e.decayUpdate →
          e.process = { e with level := e.decayUpdate }))
    ∧ (∀ e : AdsrEnvelope, e.state = .Releasing →
        (e.releaseUpdate ≤ 0 →
          e.process = { e with level := 0, state := .Idle, start_time := none })
        ∧ (0 < e.releaseUpdate → e.process = { e with level := e.releaseUpdate }))
    ∧ (∀ e : AdsrEnvelope, e.state = .Idle → e.process = e)
    ∧ (∀ e : AdsrEnvelope, e.state = .Sustaining → e.process = e) := by
  refine ⟨?_, ?_, ?_, ?_, ?_, ?_, ?_⟩
  · intro e now
    rfl
  · intro e h
    rcases h with h | h | h <;> simp [AdsrEnvelope.gate_off, h]
  · intro e h
    constructor
    · intro hle
      simp only [AdsrEnvelope.process, h]
      rw [if_pos]
      exact hle
    · intro hlt
      simp only [AdsrEnvelope.attackUpdate] at hlt
      simp only [AdsrEnvelope.process, AdsrEnvelope.attackUpdate, h]
      rw [if_neg (not_le.mpr hlt)]
  · intro e h
    constructor
    · intro hle
      simp only [AdsrEnvelope.process, h]
      rw [if_pos]
      exact hle
    · intro hlt
      simp only [AdsrEnvelope.decayUpdate] at hlt
      simp only [AdsrEnvelope.process, AdsrEnvelope.decayUpdate, h]
      rw [if_neg (not_le.mpr hlt)]
  · intro e h
    constructor
    · intro hle
      simp only [AdsrEnvelope.process, h]
      rw [if_pos]
      exact hle
    · intro hlt
      simp only [AdsrEnvelope.releaseUpdate] at hlt
      simp only [AdsrEnvelope.process, AdsrEnvelope.releaseUpdate, h]
      rw [if_neg (not_le.mpr hlt)]
  · intro e h
    simp [AdsrEnvelope.process, h]
  · intro e h
    simp [AdsrEnvelope.process, h]

/-- Witness for C2 at a concrete envelope: an attacking envelope whose
updated level reaches 2 is snapped to level 1 and moved to Decaying. -/
theorem envelope_state_machine_spec_witness :
    ({ AdsrEnvelope.new 0 with state := .Attacking, attack_base := 2 } : AdsrEnvelope).process
      = { AdsrEnvelope.new 0 with state := .Decaying, attack_base := 2, level := 1 } := by
  have h := (envelope_state_machine_spec.2.2.1
      { AdsrEnvelope.new 0 with state := .Attacking, attack_base := 2 } rfl).1
  have hup : ({ AdsrEnvelope.new 0 with state := .Attacking, attack_base := 2 } :
      AdsrEnvelope).attackUpdate = 2 := by
    simp [AdsrEnvelope.attackUpdate, AdsrEnvelope.new]
  rw [h (by rw [hup]; norm_num)]

/-- C3: for an envelope carrying the fixed overshoot ratios (0.1 attack,
0.001 decay/release), `set_envelope_parameters` computes exactly the
spec's per-stage coefficients and bases; a non-positive
`rateSeconds * sampleRate` yields coefficient 0, in which case the very
next per-sample update in that stage jumps past the stage target and
snaps in one sample. -/
theorem envelope_coefficient_formulas (e : AdsrEnvelope) (sr a d s r : ℝ)
    (hra : e.target_ratio_a = 0.1) (hrdr : e.target_ratio_dr = 0.001) :
    (0 < a * sr →
      (e.set_envelope_parameters sr a d s r).attack_coeff
        = Real.exp (-Real.log ((1 + 0.1) / 0.1) / (a * sr)))
    ∧ (0 < d * sr →
      (e.set_envelope_parameters sr a d s r).decay_coeff
        = Real.exp (-Real.log ((1 + 0.001) / 0.001) / (d * sr)))
    ∧ (0 < r * sr →
      (e.set_envelope_parameters sr a d s r).release_coeff
        = Real.exp (-Real.log ((1 + 0.001) / 0.001) / (r * sr)))
    ∧ (e.set_envelope_parameters sr a d s r).attack_base
        = (1 + 0.1) * (1 - (e.set_envelope_parameters sr a d s r).attack_coeff)
    ∧ (e.set_envelope_parameters sr a d s r).decay_base
        = (s - 0.001) * (1 - (e.set_envelope_parameters sr a d s r).decay_coeff)
    ∧ (e.set_envelope_parameters sr a d s r).release_base
        = -0.001 * (1 - (e.set_envelope_parameters sr a d s r).release_coeff)
    ∧ (a * sr ≤ 0 → (e.set_envelope_parameters sr a d s r).attack_coeff = 0)
    ∧ (d * sr ≤ 0 → (e.set_envelope_parameters sr a d s r).decay_coeff = 0)
    ∧ (r * sr ≤ 0 → (e.set_envelope_parameters sr a d s r).release_coeff = 0)
    ∧ (a * sr ≤ 0 → ∀ lvl : ℝ,
        ({ e.set_envelope_parameters sr a d s r with
            state := .Attacking, level := lvl } : AdsrEnvelope).process
          = { e.set_envelope_parameters sr a d s r with state := .Decaying, level := 1 })
    ∧ (d * sr ≤ 0 → ∀ lvl : ℝ,
        ({ e.set_envelope_parameters sr a d s r with
            state := .Decaying, level := lvl } : AdsrEnvelope).process
          = { e.set_envelope_parameters sr a d s r with state := .Sustaining, level := s })
    ∧ (r * sr ≤ 0 → ∀ lvl : ℝ,
        ({ e.set_envelope_parameters sr a d s r with
            state := .Releasing, level := lvl } : AdsrEnvelope).process
          = { e.set_envelope_parameters sr a d s r with
              state := .Idle, level := 0, start_time := none }) := by
  refine ⟨?_, ?_, ?_, ?_, ?_, ?_, ?_, ?_, ?_, ?_, ?_, ?_⟩
  · intro h
    rw [set_params_attack_coeff, hra]
    simp only [calc_coeff]
    rw [if_neg (not_le.mpr h)]
  · intro h
    rw [set_params_decay_coeff, hrdr]
    simp only [calc_coeff]
    rw [if_neg (not_le.mpr h)]
  · intro h
    rw [set_params_release_coeff, hrdr]
    simp only [calc_coeff]
    rw [if_neg (not_le.mpr h)]
  · rw [set_params_attack_base, set_params_attack_coeff, hra]
  · rw [set_params_decay_base, set_params_decay_coeff, hrdr]
  · rw [set_params_release_base, set_params_release_coeff, hrdr]
  · intro h
    rw [set_params_attack_coeff]
    simp only [calc_coeff]
    rw [if_pos h]
  · intro h
    rw [set_params_decay_coeff]
    simp only [calc_coeff]
    rw [if_pos h]
  · intro h
    rw [set_params_release_coeff]
    simp only [calc_coeff]
    rw [if_pos h]
  · intro h lvl
    have hc : (e.set_envelope_parameters sr a d s r).attack_coeff = 0 := by
      rw [set_params_attack_coeff]
      simp only [calc_coeff]
      rw [if_pos h]
    have hb : (e.set_envelope_parameters sr a d s r).attack_base = 1.1 := by
      rw [set_params_attack_base, hra]
      simp only [calc_coeff]
      rw [if_pos h]
      norm_num
    simp only [AdsrEnvelope.process]
    rw [hb, hc, if_pos (by norm_num : (1 : ℝ) ≤ 1.1 + lvl * 0)]
  · intro h lvl
    have hc : (e.set_envelope_parameters sr a d s r).decay_coeff = 0 := by
      rw [set_params_decay_coeff]
      simp only [calc_coeff]
      rw [if_pos h]
    have hb : (e.set_envelope_parameters sr a d s r).decay_base = s - 0.001 := by
      rw [set_params_decay_base, hrdr]
      simp only [calc_coeff]
      rw [if_pos h]
      norm_num
    have hs : (e.set_envelope_parameters sr a d s r).params.sustain_level = s :=
      set_params_sustain e sr a d s r
    simp only [AdsrEnvelope.process]
    rw [hb, hc, hs, if_pos (by norm_num : s - 0.001 + lvl * 0 ≤ s)]
  · intro h lvl
    have hc : (e.set_envelope_parameters sr a d s r).release_coeff = 0 := by
      rw [set_params_release_coeff]
      simp only [calc_coeff]
      rw [if_pos h]
    have hb : (e.set_envelope_parameters sr a d s r).release_base = -0.001 := by
      rw [set_params_release_base, hrdr]
      simp only [calc_coeff]
      rw [if_pos h]
      norm_num
    simp only [AdsrEnvelope.process]
    rw [hb, hc, if_pos (by norm_num : (-0.001 : ℝ) + lvl * 0 ≤ 0)]

/-- Witness for C3: at sample rate 2 and rates (attack 3, decay 0,
release 5) on a fresh envelope, the attack coefficient takes the exact
exponential form and the decay coefficient collapses to 0. -/
theorem envelope_coefficient_formulas_witness :
    ((AdsrEnvelope.new 0).set_envelope_parameters 2 3 0 (1/2) 5).attack_coeff
      = Real.exp (-Real.log ((1 + 0.1) / 0.1) / (3 * 2))
    ∧ ((AdsrEnvelope.new 0).set_envelope_parameters 2 3 0 (1/2) 5).decay_coeff = 0 := by
  have h := envelope_coefficient_formulas (AdsrEnvelope.new 0) 2 3 0 (1/2) 5 rfl rfl
  exact ⟨h.1 (by norm_num), h.2.2.2.2.2.2.2.1 (by norm_num)⟩

/-- C9: at 44,100 Hz with attack time 0.01 s, the envelope gated on from
level 0 follows the closed form `(1+0.1)(1 - c^n)` through the first 440
updates (remaining in Attacking), `c^441 = 1/11`, and the 441st update
snaps the level to exactly 1.0 and completes the attack stage — in
particular the level has reached ≥ 0.99 by the 441st update. -/
theorem attack_reaches_one_at_441 (d s r now : ℝ) (c : ℝ)
    (hc : c = Real.exp (-Real.log 11 / 441)) (e0 : AdsrEnvelope)
    (he : e0 = ((AdsrEnvelope.new 0).set_envelope_parameters 44100 0.01 d s r).gate_on now) :
    e0.attack_coeff = c
    ∧ c ^ 441 = 1 / 11
    ∧ (∀ n, n ≤ 440 →
        (AdsrEnvelope.process^[n] e0).level = 11 / 10 * (1 - c ^ n)
        ∧ (AdsrEnvelope.process^[n] e0).state = .Attacking)
    ∧ (AdsrEnvelope.process^[441] e0).level = 1
    ∧ (AdsrEnvelope.process^[441] e0).state = .Decaying
    ∧ (99 / 100 : ℝ) ≤ (AdsrEnvelope.process^[441] e0).level := by
  subst he
  have hrate : (0.01 : ℝ) * 44100 = 441 := by norm_num
  have hca :
      (((AdsrEnvelope.new 0).set_envelope_parameters 44100 0.01 d s r).gate_on now).attack_coeff
        = c := by
    show ((AdsrEnvelope.new 0).set_envelope_parameters 44100 0.01 d s r).attack_coeff = c
    rw [set_params_attack_coeff]
    show calc_coeff (0.01 * 44100) 0.1 = c
    rw [hrate]
    simp only [calc_coeff]
    rw [if_neg (by norm_num)]
    rw [show ((1 : ℝ) + 0.1) / 0.1 = 11 by norm_num, hc]
  have hba :
      (((AdsrEnvelope.new 0).set_envelope_parameters 44100 0.01 d s r).gate_on now).attack_base
        = 11 / 10 * (1 - c) := by
    show ((AdsrEnvelope.new 0).set_envelope_parameters 44100 0.01 d s r).attack_base = _
    rw [set_params_attack_base]
    show (1 + 0.1) * (1 - calc_coeff (0.01 * 44100) 0.1) = _
    rw [hrate]
    simp only [calc_coeff]
    rw [if_neg (by norm_num)]
    rw [show ((1 : ℝ) + 0.1) / 0.1 = 11 by norm_num, hc]
    norm_num
  have hst :
      (((AdsrEnvelope.new 0).set_envelope_parameters 44100 0.01 d s r).gate_on now).state
        = EnvState.Attacking := rfl
  have hc0 : 0 < c := by rw [hc]; exact Real.exp_pos _
  have hc1 : c < 1 := by
    rw [hc, Real.exp_lt_one_iff]
    have h11 : 0 < Real.log 11 := Real.log_pos (by norm_num)
    have : (0 : ℝ) < 441 := by norm_num
    exact div_neg_of_neg_of_pos (neg_neg_of_pos h11) this
  have hpow : c ^ 441 = 1 / 11 := by
    rw [hc, ← Real.exp_nat_mul]
    rw [show ((441 : ℕ) : ℝ) * (-Real.log 11 / 441) = -Real.log 11 by push_cast; ring]
    rw [Real.exp_neg, Real.exp_log (by norm_num : (0 : ℝ) < 11)]
    norm_num
  set e0 := ((AdsrEnvelope.new 0).set_envelope_parameters 44100 0.01 d s r).gate_on now with he0
  have hlvl : e0.level = 0 := by
    show ((AdsrEnvelope.new 0).set_envelope_parameters 44100 0.01 d s r).level = 0
    rw [set_params_level]
    rfl
  have main : ∀ n, n ≤ 440 →
      AdsrEnvelope.process^[n] e0 = { e0 with level := 11 / 10 * (1 - c ^ n) } := by
    intro n
    induction n with
    | zero =>
        intro _
        rw [Function.iterate_zero_apply]
        have : (11 : ℝ) / 10 * (1 - c ^ 0) = e0.level := by rw [hlvl]; norm_num
        rw [this]
    | succ n ih =>
        intro hn
        have hn' : n ≤ 440 := Nat.le_of_succ_le hn
        rw [Function.iterate_succ_apply', ih hn']
        have hname : ({ e0 with level := 11 / 10 * (1 - c ^ n) } : AdsrEnvelope).state
            = EnvState.Attacking := hst
        simp only [AdsrEnvelope.process, hname]
        rw [hba, hca]
        have harith : (11 : ℝ) / 10 * (1 - c) + 11 / 10 * (1 - c ^ n) * c
            = 11 / 10 * (1 - c ^ (n + 1)) := by ring
        rw [harith]
        have hgt : 1 / 11 < c ^ (n + 1) := by
          rw [← hpow]
          exact pow_lt_pow_right_of_lt_one₀ hc0 hc1 (by omega)
        rw [if_neg (not_le.mpr (by linarith))]
        rw [hst]
  have h441 : AdsrEnvelope.process^[441] e0 = { e0 with level := 1, state := .Decaying } := by
    rw [show (441 : ℕ) = 440 + 1 from rfl, Function.iterate_succ_apply', main 440 le_rfl]
    have hname : ({ e0 with level := 11 / 10 * (1 - c ^ 440) } : AdsrEnvelope).state
        = EnvState.Attacking := hst
    simp only [AdsrEnvelope.process, hname]
    rw [hba, hca]
    have harith : (11 : ℝ) / 10 * (1 - c) + 11 / 10 * (1 - c ^ 440) * c
        = 11 / 10 * (1 - c ^ 441) := by ring
    have hone : (11 : ℝ) / 10 * (1 - c ^ 441) = 1 := by rw [hpow]; norm_num
    rw [harith, hone, if_pos le_rfl]
    rw [hst]
  refine ⟨hca, hpow, ?_, ?_, ?_, ?_⟩
  · intro n hn
    rw [main n hn]
    exact ⟨rfl, hst⟩
  · rw [h441]
  · rw [h441]
  · rw [h441]
    norm_num

/-- Witness for C9 with concrete decay/sustain/release parameters and
gate-on time. -/
theorem attack_reaches_one_at_441_witness :
    (AdsrEnvelope.process^[441]
        (((AdsrEnvelope.new 0).set_envelope_parameters 44100 0.01 1 (1/2) 1).gate_on 0)).level = 1
    ∧ (AdsrEnvelope.process^[441]
        (((AdsrEnvelope.new 0).set_envelope_parameters 44100 0.01 1 (1/2) 1).gate_on 0)).state
      = EnvState.Decaying := by
  have h := attack_reaches_one_at_441 1 (1/2) 1 0 (Real.exp (-Real.log 11 / 441)) rfl
    (((AdsrEnvelope.new 0).set_envelope_parameters 44100 0.01 1 (1/2) 1).gate_on 0) rfl
  exact ⟨h.2.2.2.1, h.2.2.2.2.1⟩

theorem truncToInt_of_nonneg {x : ℝ} (hx : 0 ≤ x) : truncToInt x = ⌊x⌋ := by
  simp [truncToInt, hx]

/-- Closed form of the fast lookup on `[9, 149]`: no clamping occurs and
the result factors into the integer-semitone power and the interpolated
fractional factor. -/
theorem midi_fast_closed_form (p : ℝ) (hp9 : 9 ≤ p) (hp149 : p ≤ 149) :
    midi_pitch_to_freq p
      = 440 * (2 : ℝ) ^ (((⌊p⌋ : ℝ) - 69) / 12)
        * ((1 - Int.fract (Int.fract p * 1000))
              * (2 : ℝ) ^ ((⌊Int.fract p * 1000⌋ : ℝ) / 12000)
            + Int.fract (Int.fract p * 1000)
              * (2 : ℝ) ^ (((⌊Int.fract p * 1000⌋ : ℝ) + 1) / 12000)) := by
  have hp0 : (0 : ℝ) ≤ p := by linarith
  have hfr0 : 0 ≤ Int.fract p * 1000 := mul_nonneg (Int.fract_nonneg p) (by norm_num)
  have hfloor_a : (0 : ℤ) ≤ ⌊Int.fract p * 1000⌋ := Int.floor_nonneg.mpr hfr0
  have h9 : (9 : ℤ) ≤ ⌊p⌋ := Int.le_floor.mpr (by exact_mod_cast hp9)
  have h149 : ⌊p⌋ ≤ 149 := by
    have := Int.floor_le_floor (α := ℝ) hp149
    simpa using this
  simp only [midi_pitch_to_freq, truncToInt_of_nonneg hp0, A4_FREQ, PITCH_TABLE_SIZE]
  have ha : (p - (⌊p⌋ : ℝ)) * 1000 = Int.fract p * 1000 := by
    rw [Int.self_sub_floor]
  rw [ha]
  have hidx : truncToNat (Int.fract p * 1000) = (⌊Int.fract p * 1000⌋).toNat := rfl
  rw [hidx]
  have hcastIdx : (((⌊Int.fract p * 1000⌋).toNat : ℕ) : ℝ) = ((⌊Int.fract p * 1000⌋ : ℤ) : ℝ) := by
    exact_mod_cast congrArg (fun z : ℤ => (z : ℝ)) (Int.toNat_of_nonneg hfloor_a)
  have hclamp : min (max (⌊p⌋ + 256 - 69) 0) (((512 : ℕ) : ℤ) - 1) = ⌊p⌋ + 187 := by
    push_cast
    omega
  rw [hclamp]
  have hpitch : PITCH (⌊p⌋ + 187).toNat = (2 : ℝ) ^ (((⌊p⌋ : ℝ) - 69) / 12) := by
    simp only [PITCH]
    rw [show ((⌊p⌋ + 187).toNat : ℤ) - 256 = ⌊p⌋ - 69 by omega]
    congr 1
    push_cast
    ring
  rw [hpitch]
  simp only [POW2, Int.fract]
  push_cast
  simp only [Int.fract] at hcastIdx
  rw [hcastIdx]
  ring_nf

theorem two_rpow_pos (x : ℝ) : 0 < (2 : ℝ) ^ x :=
  Real.rpow_pos_of_pos (by norm_num) x

/-- The per-cent interpolation step ratio `2^(1/12000)` is below the
0.1 % error budget. -/
theorem interp_step_lt : (2 : ℝ) ^ ((1 : ℝ) / 12000) < 1.001 := by
  have hdef : (2 : ℝ) ^ ((1 : ℝ) / 12000) = Real.exp (Real.log 2 * (1 / 12000)) :=
    Real.rpow_def_of_pos (by norm_num) _
  rw [hdef]
  set x : ℝ := Real.log 2 * (1 / 12000) with hxdef
  have hlog2 : Real.log 2 < 0.6931471808 := Real.log_two_lt_d9
  have hlog2p : 0 < Real.log 2 := Real.log_pos (by norm_num)
  have hx1 : x < 0.0001 := by rw [hxdef]; nlinarith
  have hx0 : 0 < x := by rw [hxdef]; positivity
  have hB : Real.exp x * (1 - x) ≤ 1 := by
    have hA : (1 : ℝ) - x ≤ Real.exp (-x) := by
      have := Real.add_one_le_exp (-x)
      linarith
    have hinv : Real.exp (-x) = (Real.exp x)⁻¹ := Real.exp_neg x
    rw [hinv] at hA
    have hpos : 0 < Real.exp x := Real.exp_pos x
    calc Real.exp x * (1 - x) ≤ Real.exp x * (Real.exp x)⁻¹ :=
          mul_le_mul_of_nonneg_left hA (le_of_lt hpos)
      _ = 1 := mul_inv_cancel₀ (ne_of_gt hpos)
  have hub : Real.exp x ≤ 3 := by
    have h1 : Real.exp x ≤ Real.exp 1 := Real.exp_le_exp.mpr (by nlinarith)
    have h2 : Real.exp 1 < 2.7182818286 := Real.exp_one_lt_d9
    linarith
  nlinarith

/-- C4: the fast table-based pitch-to-frequency conversion returns
exactly 440 at pitch 69, and on the whole range `[9, 149]` (−60..+80
semitones from A4) its relative error versus the exact exponential form
is strictly below 0.1 %. -/
theorem pitch_table_accuracy :
    midi_pitch_to_freq 69 = 440
    ∧ ∀ p : ℝ, 9 ≤ p → p ≤ 149 →
        |midi_pitch_to_freq p - midi_pitch_to_freq_slow p|
          < 0.001 * midi_pitch_to_freq_slow p := by
  constructor
  · rw [midi_fast_closed_form 69 (by norm_num) (by norm_num)]
    have h69 : ⌊(69 : ℝ)⌋ = 69 := by
      rw [show (69 : ℝ) = ((69 : ℤ) : ℝ) by norm_num, Int.floor_intCast]
    have hfr69 : Int.fract (69 : ℝ) = 0 := by
      simp [Int.fract, h69]
    rw [h69, hfr69]
    norm_num [Real.rpow_zero]
  · intro p hp9 hp149
    rw [midi_fast_closed_form p hp9 hp149]
    have hakt : ((⌊Int.fract p * 1000⌋ : ℝ)) + Int.fract (Int.fract p * 1000)
        = (p - (⌊p⌋ : ℝ)) * 1000 := by
      rw [Int.floor_add_fract, ← Int.self_sub_floor]
    have hm : midi_pitch_to_freq_slow p
        = 440 * (2 : ℝ) ^ (((⌊p⌋ : ℝ) - 69) / 12)
          * (2 : ℝ) ^ ((((⌊Int.fract p * 1000⌋ : ℝ))
              + Int.fract (Int.fract p * 1000)) / 12000) := by
      simp only [midi_pitch_to_freq_slow, A4_PITCH, A4_FREQ]
      rw [show (p - 69) / 12
          = (((⌊p⌋ : ℝ) - 69) / 12)
            + ((((⌊Int.fract p * 1000⌋ : ℝ))
                + Int.fract (Int.fract p * 1000)) / 12000) from by rw [hakt]; ring]
      rw [Real.rpow_add (by norm_num : (0 : ℝ) < 2)]
      ring
    rw [hm]
    set mp : ℝ := ((⌊p⌋ : ℝ) - 69) / 12 with hmp
    set k : ℝ := ((⌊Int.fract p * 1000⌋ : ℝ)) with hk
    set t : ℝ := Int.fract (Int.fract p * 1000) with ht
    have ht0 : 0 ≤ t := Int.fract_nonneg _
    have ht1 : t < 1 := Int.fract_lt_one _
    set cc : ℝ := (2 : ℝ) ^ ((1 : ℝ) / 12000) with hccdef
    set u : ℝ := (2 : ℝ) ^ (t / 12000) with hudef
    have hsplit : (2 : ℝ) ^ ((k + 1) / 12000) = (2 : ℝ) ^ (k / 12000) * cc := by
      rw [hccdef, ← Real.rpow_add (by norm_num : (0 : ℝ) < 2)]
      congr 1
      ring
    have husplit : (2 : ℝ) ^ ((k + t) / 12000) = (2 : ℝ) ^ (k / 12000) * u := by
      rw [hudef, ← Real.rpow_add (by norm_num : (0 : ℝ) < 2)]
      congr 1
      ring
    rw [hsplit, husplit]
    have hcc1 : 1 ≤ cc := Real.one_le_rpow (by norm_num) (by norm_num)
    have hcc1001 : cc < 1.001 := interp_step_lt
    have hu1 : 1 ≤ u := Real.one_le_rpow (by norm_num) (by positivity)
    have hucc : u ≤ cc := by
      rw [hudef, hccdef]
      exact (Real.rpow_le_rpow_left_iff (by norm_num : (1 : ℝ) < 2)).mpr (by linarith)
    set A : ℝ := 440 * (2 : ℝ) ^ mp * (2 : ℝ) ^ (k / 12000) with hAdef
    have hApos : 0 < A := by
      rw [hAdef]
      have := two_rpow_pos mp
      have := two_rpow_pos (k / 12000)
      positivity
    set N : ℝ := (1 - t) + t * cc with hNdef
    have hN1 : 1 ≤ N := by rw [hNdef]; nlinarith
    have hNcc : N ≤ cc := by rw [hNdef]; nlinarith
    have hdiff : 440 * (2 : ℝ) ^ mp
          * ((1 - t) * (2 : ℝ) ^ (k / 12000) + t * ((2 : ℝ) ^ (k / 12000) * cc))
        - 440 * (2 : ℝ) ^ mp * ((2 : ℝ) ^ (k / 12000) * u) = A * (N - u) := by
      rw [hAdef, hNdef]
      ring
    rw [hdiff]
    have habs : |N - u| < 0.001 * u := by
      rw [abs_lt]
      constructor
      · nlinarith
      · nlinarith
    have hmulpos : 440 * (2 : ℝ) ^ mp * ((2 : ℝ) ^ (k / 12000) * u) = A * u := by
      rw [hAdef]; ring
    rw [hmulpos, abs_mul, abs_of_pos hApos]
    calc A * |N - u| < A * (0.001 * u) := by
          exact mul_lt_mul_of_pos_left habs hApos
      _ = 0.001 * (A * u) := by ring

/-- Witness for C4 at the concrete in-range pitch 70.5: the fast lookup
is within 0.1 % of the exact form. -/
theorem pitch_table_accuracy_witness :
    |midi_pitch_to_freq (141/2) - midi_pitch_to_freq_slow (141/2)|
      < 0.001 * midi_pitch_to_freq_slow (141/2) :=
  pitch_table_accuracy.2 (141/2) (by norm_num) (by norm_num)

theorem add_blep_phase (kt bl : ℕ) (bd : ℕ → ℝ) (o : Oscillator) (off amp : ℝ) :
    (Oscillator.add_blep kt bl bd o off amp).phase = o.phase := rfl

/-- C10: calling `generate` with a non-positive frequency returns 0.0
and leaves the whole oscillator state (phase, ring buffer, write
cursor, pending count) unchanged, for every waveform, amplitude, pulse
width and sample rate. -/
theorem generate_nonpositive_freq_frame (kt bl : ℕ) (bd : ℕ → ℝ) (osc : Oscillator)
    (waveform : WaveForm) (freq amplitude pulse_width sample_rate : ℝ)
    (hfreq : freq ≤ 0) :
    Oscillator.generate kt bl bd osc waveform freq amplitude pulse_width sample_rate
      = (osc, 0) := by
  simp only [Oscillator.generate]
  rw [if_pos hfreq]

/-- Witness for C10: a concrete oscillator driven at frequency −1 is
returned untouched with output 0. -/
theorem generate_nonpositive_freq_frame_witness :
    Oscillator.generate 64 128 (fun _ => 0)
        { buffer := [0, 0], i_buffer := 1, n_init := 1, phase := 1/3 }
        .Saw (-1) 1 (1/2) 44100
      = ({ buffer := [0, 0], i_buffer := 1, n_init := 1, phase := 1/3 }, 0) :=
  generate_nonpositive_freq_frame 64 128 (fun _ => 0)
    { buffer := [0, 0], i_buffer := 1, n_init := 1, phase := 1/3 }
    .Saw (-1) 1 (1/2) 44100 (by norm_num)

/-- C5 (amended): `new` with a random phase in `[0,1)` starts in
`[0,1)` and `trig` resets the phase to 0, but a `generate` call with
`0 < freq ≤ sampleRate` only keeps the phase in the closed interval
`[0,1]` (it can land exactly on 1.0) for the Saw, Sine, UnipolarSquare
and Triangle waveforms, and in `(0,2]` for Square, whose
pulse-width-crossing branch skips the wrap. -/
theorem oscillator_phase_bounds :
    (∀ (bufLen : ℕ) (rp : ℝ), 0 ≤ rp → rp < 1 →
        0 ≤ (Oscillator.new bufLen rp).phase ∧ (Oscillator.new bufLen rp).phase < 1)
    ∧ (∀ osc : Oscillator, osc.trig.phase = 0)
    ∧ (∀ (kt bl : ℕ) (bd : ℕ → ℝ) (osc : Oscillator) (wf : WaveForm)
        (freq amp pw sr : ℝ), 0 ≤ osc.phase → osc.phase ≤ 1 → 0 < freq → freq ≤ sr →
        wf ≠ .Square →
        0 ≤ (Oscillator.generate kt bl bd osc wf freq amp pw sr).1.phase
        ∧ (Oscillator.generate kt bl bd osc wf freq amp pw sr).1.phase ≤ 1)
    ∧ (∀ (kt bl : ℕ) (bd : ℕ → ℝ) (osc : Oscillator)
        (freq amp pw sr : ℝ), 0 ≤ osc.phase → osc.phase ≤ 1 → 0 < freq → freq ≤ sr →
        0 < (Oscillator.generate kt bl bd osc .Square freq amp pw sr).1.phase
        ∧ (Oscillator.generate kt bl bd osc .Square freq amp pw sr).1.phase ≤ 2) := by
  refine ⟨?_, ?_, ?_, ?_⟩
  · intro bufLen rp h0 h1
    exact ⟨h0, h1⟩
  · intro osc
    rfl
  · intro kt bl bd osc wf freq amp pw sr hp0 hp1 hf hfs hwf
    have hsr : 0 < sr := lt_of_lt_of_le hf hfs
    have hdp0 : 0 < freq / sr := div_pos hf hsr
    have hdp1 : freq / sr ≤ 1 := (div_le_one hsr).mpr hfs
    cases wf with
    | Square => exact absurd rfl hwf
    | Saw =>
        simp only [Oscillator.generate]
        rw [if_neg (not_le.mpr hf)]
        simp only []
        split_ifs with h1 h2 h3 <;>
          simp only [add_blep_phase] <;> constructor <;> linarith
    | Sine =>
        simp only [Oscillator.generate]
        rw [if_neg (not_le.mpr hf)]
        split_ifs with h1 <;> constructor <;> linarith
    | UnipolarSquare =>
        simp only [Oscillator.generate]
        rw [if_neg (not_le.mpr hf)]
        split_ifs with h1 <;> constructor <;> linarith
    | Triangle =>
        simp only [Oscillator.generate]
        rw [if_neg (not_le.mpr hf)]
        split_ifs with h1 <;> constructor <;> linarith
  · intro kt bl bd osc freq amp pw sr hp0 hp1 hf hfs
    have hsr : 0 < sr := lt_of_lt_of_le hf hfs
    have hdp0 : 0 < freq / sr := div_pos hf hsr
    have hdp1 : freq / sr ≤ 1 := (div_le_one hsr).mpr hfs
    simp only [Oscillator.generate]
    rw [if_neg (not_le.mpr hf)]
    simp only []
    split_ifs with h1 h2 h3 <;>
      simp only [add_blep_phase] <;> constructor <;> linarith

/-- Witness for the amended C5 at a concrete oscillator and input. -/
theorem oscillator_phase_bounds_witness :
    0 ≤ (Oscillator.generate 64 128 (fun _ => 0)
          { buffer := [0, 0], i_buffer := 0, n_init := 0, phase := 1/4 }
          .Sine 1 1 (1/2) 2).1.phase
    ∧ (Oscillator.generate 64 128 (fun _ => 0)
          { buffer := [0, 0], i_buffer := 0, n_init := 0, phase := 1/4 }
          .Sine 1 1 (1/2) 2).1.phase ≤ 1 :=
  oscillator_phase_bounds.2.2.1 64 128 (fun _ => 0)
    { buffer := [0, 0], i_buffer := 0, n_init := 0, phase := 1/4 }
    .Sine 1 1 (1/2) 2 (by norm_num) (by norm_num) (by norm_num) (by norm_num)
    (by simp)

/-- Counterexample to C5 as stated: an oscillator with phase 1/2
(inside `[0,1)`) driven one `generate` call at `freq/sampleRate = 1/2`
with the Saw waveform lands exactly on phase 1.0, which is outside
`[0,1)` — the wrap test is strict (`> 1.0`). -/
theorem oscillator_phase_counterexample :
    (0 ≤ ({ buffer := [0, 0], i_buffer := 0, n_init := 0, phase := 1/2 } :
        Oscillator).phase
      ∧ ({ buffer := [0, 0], i_buffer := 0, n_init := 0, phase := 1/2 } :
        Oscillator).phase < 1)
    ∧ ¬ ((Oscillator.generate 64 128 (fun _ => 0)
          { buffer := [0, 0], i_buffer := 0, n_init := 0, phase := 1/2 }
          .Saw 1 1 (1/2) 2).1.phase < 1) := by
  constructor
  · constructor <;> norm_num
  · have hgen : (Oscillator.generate 64 128 (fun _ => 0)
        { buffer := [0, 0], i_buffer := 0, n_init := 0, phase := 1/2 }
        .Saw 1 1 (1/2) 2).1.phase = 1 := by
      simp only [Oscillator.generate]
      rw [if_neg (by norm_num : ¬ (1 : ℝ) ≤ 0)]
      norm_num
    rw [hgen]
    norm_num

theorem oversample_tune (m : HuovilainenMoog) (x : ℝ) : (m.oversample x).tune = m.tune := rfl

theorem oversample_acr (m : HuovilainenMoog) (x : ℝ) : (m.oversample x).acr = m.acr := rfl

theorem oversample_res_quad (m : HuovilainenMoog) (x : ℝ) :
    (m.oversample x).res_quad = m.res_quad := rfl

theorem oversample_coeff_cutoff (m : HuovilainenMoog) (x : ℝ) :
    (m.oversample x).coeff_cutoff = m.coeff_cutoff := rfl

theorem oversample_coeff_resonance (m : HuovilainenMoog) (x : ℝ) :
    (m.oversample x).coeff_resonance = m.coeff_resonance := rfl

/-- C6 (amended, primary `src/huovilainen.rs`): `process` recomputes the
cached tuning values exactly when the `(cutoff, resonance)` pair differs
from the cached pair of the previous call; on a matching pair `tune`,
`acr`, `res_quad` and the cache keys are all left untouched (even if the
sample rate changed), and on a differing pair they are refreshed with
the polynomial/exponential fit of `fc = clamp(cutoff) / sampleRate`.
The legacy `src/synth/huovilainen.rs` has no such cache and recomputes
unconditionally (see the counterexample). -/
theorem filter_coeff_cache (m : HuovilainenMoog) (in_sample sample_rate cutoff resonance : ℝ) :
    (m.coeff_cutoff = cutoff ∧ m.coeff_resonance = resonance →
      (m.process in_sample sample_rate cutoff resonance).1.tune = m.tune
      ∧ (m.process in_sample sample_rate cutoff resonance).1.acr = m.acr
      ∧ (m.process in_sample sample_rate cutoff resonance).1.res_quad = m.res_quad
      ∧ (m.process in_sample sample_rate cutoff resonance).1.coeff_cutoff = m.coeff_cutoff
      ∧ (m.process in_sample sample_rate cutoff resonance).1.coeff_resonance
          = m.coeff_resonance)
    ∧ (¬(m.coeff_cutoff = cutoff ∧ m.coeff_resonance = resonance) →
      (m.process in_sample sample_rate cutoff resonance).1.acr
          = -3.9364 * (min (max cutoff 0) (sample_rate / 2) / sample_rate
              * (min (max cutoff 0) (sample_rate / 2) / sample_rate))
            + 1.8409 * (min (max cutoff 0) (sample_rate / 2) / sample_rate) + 0.9968
      ∧ (m.process in_sample sample_rate cutoff resonance).1.tune
          = (1 - Real.exp (-(2 * Real.pi
              * (min (max cutoff 0) (sample_rate / 2) / sample_rate * 0.5)
              * (1.8730 * (min (max cutoff 0) (sample_rate / 2) / sample_rate
                    * (min (max cutoff 0) (sample_rate / 2) / sample_rate)
                    * (min (max cutoff 0) (sample_rate / 2) / sample_rate))
                 + 0.4955 * (min (max cutoff 0) (sample_rate / 2) / sample_rate
                    * (min (max cutoff 0) (sample_rate / 2) / sample_rate))
                 - 0.6490 * (min (max cutoff 0) (sample_rate / 2) / sample_rate)
                 + 0.9988)))) / THERMAL
      ∧ (m.process in_sample sample_rate cutoff resonance).1.res_quad
          = 4 * resonance * (m.process in_sample sample_rate cutoff resonance).1.acr
      ∧ (m.process in_sample sample_rate cutoff resonance).1.coeff_cutoff = cutoff
      ∧ (m.process in_sample sample_rate cutoff resonance).1.coeff_resonance = resonance) := by
  have hfst : ∀ mm : HuovilainenMoog,
      (mm.process in_sample sample_rate cutoff resonance).1
        = ((mm.compute_coeffs cutoff resonance sample_rate).oversample in_sample).oversample
            in_sample := by
    intro mm
    rfl
  constructor
  · intro heq
    rw [hfst m]
    simp only [oversample_tune, oversample_acr, oversample_res_quad,
      oversample_coeff_cutoff, oversample_coeff_resonance]
    rw [HuovilainenMoog.compute_coeffs, if_pos heq]
    exact ⟨rfl, rfl, rfl, rfl, rfl⟩
  · intro hne
    rw [hfst m]
    simp only [oversample_tune, oversample_acr, oversample_res_quad,
      oversample_coeff_cutoff, oversample_coeff_resonance]
    rw [HuovilainenMoog.compute_coeffs, if_neg hne]
    exact ⟨rfl, rfl, rfl, rfl, rfl⟩

/-- Witness for C6 at a concrete state: a `process` call repeating the
cached `(cutoff, resonance) = (0, 0)` pair leaves the tuning fields of a
fresh filter untouched. -/
theorem filter_coeff_cache_witness :
    (HuovilainenMoog.new.process (1/2) 44100 0 0).1.tune = HuovilainenMoog.new.tune
    ∧ (HuovilainenMoog.new.process (1/2) 44100 0 0).1.acr = HuovilainenMoog.new.acr
    ∧ (HuovilainenMoog.new.process (1/2) 44100 0 0).1.res_quad
        = HuovilainenMoog.new.res_quad := by
  have h := (filter_coeff_cache HuovilainenMoog.new (1/2) 44100 0 0).1 ⟨rfl, rfl⟩
  exact ⟨h.1, h.2.1, h.2.2.1⟩

end Synja

namespace SynjaLegacy

theorem legacy_oversample_acr (m : HuovilainenMoog) (x : ℝ) : (m.oversample x).acr = m.acr := rfl

/-- Counterexample to C6 as stated: the legacy ladder filter
(`src/synth/huovilainen.rs`, one of the claim's two cited
implementations) recomputes its tuning values on every `process` call.
Two consecutive calls with the identical `(cutoff, resonance) = (1, 0)`
pair but different sample rates (2 then 4) change `acr` from 0.93315 to
1.211 — the fields are not left unchanged when the pair repeats. -/
theorem filter_coeff_cache_counterexample :
    (HuovilainenMoog.new.process 0 2 1 0).1.acr = 0.93315
    ∧ (((HuovilainenMoog.new.process 0 2 1 0).1.process 0 4 1 0).1).acr = 1.211
    ∧ (((HuovilainenMoog.new.process 0 2 1 0).1.process 0 4 1 0).1).acr
        ≠ (HuovilainenMoog.new.process 0 2 1 0).1.acr := by
  have hfst : ∀ (mm : HuovilainenMoog) (i sr c r : ℝ),
      (mm.process i sr c r).1
        = ((mm.compute_coeffs c r sr).oversample i).oversample i := by
    intro mm i sr c r
    rfl
  have h1 : (HuovilainenMoog.new.process 0 2 1 0).1.acr = 0.93315 := by
    rw [hfst]
    simp only [legacy_oversample_acr]
    rw [HuovilainenMoog.compute_coeffs]
    norm_num
  have h2 : (((HuovilainenMoog.new.process 0 2 1 0).1.process 0 4 1 0).1).acr = 1.211 := by
    rw [hfst ((HuovilainenMoog.new.process 0 2 1 0).1)]
    simp only [legacy_oversample_acr]
    rw [HuovilainenMoog.compute_coeffs]
    norm_num
  refine ⟨h1, h2, ?_⟩
  rw [h1, h2]
  norm_num

end SynjaLegacy

namespace Synja

theorem envBit_eq_two_pow (id : ℕ) : envBit id = 2 ^ id := by
  simp [envBit, Nat.shiftLeft_eq]

theorem envRecomputes_eq_testBit (mask id : ℕ) :
    envRecomputes mask id = mask.testBit id := by
  simp only [envRecomputes, envFetchAndClear, envBit_eq_two_pow]
  rw [Nat.and_two_pow]
  cases h : mask.testBit id with
  | true => simp
  | false => simp [(Nat.two_pow_pos id).ne]

theorem env_all_eq : ENV_CHG_ALL = 2 ^ 16 - 1 := by norm_num [ENV_CHG_ALL]

theorem clearBit_testBit_self (mask id : ℕ) (hid : id < 16) :
    ((envFetchAndClear mask id).2).testBit id = false := by
  simp only [envFetchAndClear, envBit_eq_two_pow, env_all_eq]
  rw [Nat.testBit_land, Nat.testBit_xor, Nat.testBit_two_pow_self,
    Nat.testBit_two_pow_sub_one]
  simp [hid]

theorem clearBit_testBit_other (mask id j : ℕ) (hj : j < 16) (hne : j ≠ id) :
    ((envFetchAndClear mask id).2).testBit j = mask.testBit j := by
  simp only [envFetchAndClear, envBit_eq_two_pow, env_all_eq]
  rw [Nat.testBit_land, Nat.testBit_xor, Nat.testBit_two_pow_of_ne (Ne.symm hne),
    Nat.testBit_two_pow_sub_one]
  simp [hj]

theorem maskRun_writeFree (id : ℕ) : ∀ (mid : List EnvChgEvent) (m : ℕ),
    (∀ e ∈ mid, e ≠ .paramWrite) → m.testBit id = false →
    (envChgRun m mid).testBit id = false := by
  intro mid
  induction mid with
  | nil =>
      intro m _ h
      exact h
  | cons e rest ih =>
      intro m hmid h
      have hrun : envChgRun m (e :: rest) = envChgRun (envChgStep m e) rest := by
        simp [envChgRun]
      rw [hrun]
      cases e with
      | paramWrite => exact absurd rfl (hmid _ (List.mem_cons_self _ _))
      | render j =>
          apply ih _ (fun x hx => hmid x (List.mem_cons_of_mem _ hx))
          simp only [envChgStep, envFetchAndClear]
          rw [Nat.testBit_land, h]
          rfl

/-- C7 (amended, primary `src/lib.rs` + `src/voice.rs`): every write to
an envelope rate/sustain parameter stores `0xFFFF`, setting all 16
voices' bits; the envelope-update step of `Voice::generate` atomically
clears exactly its own bit and calls `set_envelope_parameters` on both
of its envelopes iff that bit was set at the start of the call;
consequently, once a voice has rendered, it does not recompute again on
any later render that no parameter write preceded.  The legacy
`src/synth/voice.rs` has no bitmask and recomputes the envelope
parameters on every render (see the counterexample). -/
theorem env_change_bitmask :
    (∀ (mask id : ℕ), id < 16 → (envParamWrite mask).testBit id = true)
    ∧ (∀ (mask id : ℕ), id < 16 →
        ((envFetchAndClear mask id).2).testBit id = false)
    ∧ (∀ (mask id j : ℕ), j < 16 → j ≠ id →
        ((envFetchAndClear mask id).2).testBit j = mask.testBit j)
    ∧ (∀ (v : Voice) (mask : ℕ) (a d s r fa fd fs fr : ℝ),
        (v.generateEnvUpdate mask a d s r fa fd fs fr).2
            = (envFetchAndClear mask v.id.toNat).2
        ∧ (envRecomputes mask v.id.toNat = true →
            (v.generateEnvUpdate mask a d s r fa fd fs fr).1
              = { v with
                  amp_envelope := v.amp_envelope.set_envelope_parameters v.sample_rate a d s r
                  filter_envelope :=
                    v.filter_envelope.set_envelope_parameters v.sample_rate fa fd fs fr })
        ∧ (envRecomputes mask v.id.toNat = false →
            (v.generateEnvUpdate mask a d s r fa fd fs fr).1 = v))
    ∧ (∀ (mask id : ℕ) (pre mid : List EnvChgEvent), id < 16 →
        (∀ e ∈ mid, e ≠ .paramWrite) →
        envRecomputes (envChgRun mask (pre ++ .render id :: mid)) id = false) := by
  refine ⟨?_, ?_, ?_, ?_, ?_⟩
  · intro mask id hid
    simp only [envParamWrite, env_all_eq]
    rw [Nat.testBit_two_pow_sub_one]
    simp [hid]
  · intro mask id hid
    exact clearBit_testBit_self mask id hid
  · intro mask id j hj hne
    exact clearBit_testBit_other mask id j hj hne
  · intro v mask a d s r fa fd fs fr
    have hcond : envRecomputes mask v.id.toNat = true
        ↔ (envFetchAndClear mask v.id.toNat).1 &&& envBit v.id.toNat
            = envBit v.id.toNat := by
      simp [envRecomputes]
    refine ⟨?_, ?_, ?_⟩
    · simp only [Voice.generateEnvUpdate]
      split_ifs <;> rfl
    · intro hrec
      simp only [Voice.generateEnvUpdate]
      rw [if_pos (hcond.mp hrec)]
    · intro hrec
      simp only [Voice.generateEnvUpdate]
      rw [if_neg]
      intro hcontra
      rw [hcond.mpr hcontra] at hrec
      simp at hrec
  · intro mask id pre mid hid hmid
    rw [envRecomputes_eq_testBit]
    have hsplit : envChgRun mask (pre ++ .render id :: mid)
        = envChgRun (envChgStep (envChgRun mask pre) (.render id)) mid := by
      simp [envChgRun, List.foldl_append]
    rw [hsplit]
    apply maskRun_writeFree id mid _ hmid
    exact clearBit_testBit_self _ id hid

/-- Witness for C7: voice 3's bit, set by a parameter write, survives
other voices' renders, is consumed by voice 3's first render, and is
absent on its second render with no write in between. -/
theorem env_change_bitmask_witness :
    (envParamWrite 0).testBit 3 = true
    ∧ envRecomputes (envChgRun (envParamWrite 0)
        [.render 0, .render 3, .render 1, .render 3]) 3 = false := by
  refine ⟨env_change_bitmask.1 0 3 (by norm_num), ?_⟩
  have h := env_change_bitmask.2.2.2.2 (envParamWrite 0) 3
      [EnvChgEvent.render 0] [EnvChgEvent.render 1, EnvChgEvent.render 3]
      (by norm_num) (by decide)
  have hlist : ([EnvChgEvent.render 0] ++ EnvChgEvent.render 3
      :: [EnvChgEvent.render 1, EnvChgEvent.render 3])
      = [EnvChgEvent.render 0, EnvChgEvent.render 3, EnvChgEvent.render 1,
         EnvChgEvent.render 3] := rfl
  rw [hlist] at h
  exact h

end Synja

namespace SynjaLegacy

open Synja (AdsrEnvelope)

/-- Counterexample to C7 as stated: the legacy `Voice::generate`
(`src/synth/voice.rs`, cited by the claim) recomputes its envelope
parameters unconditionally.  With the amp-attack smoother at state 0
targeting 1, two consecutive renders with no parameter write in between
store attack rate 0.1 and then 0.19 — the envelope coefficients change
on a render where no parameter change occurred, and there is no
per-voice bit gating the recompute. -/
theorem env_recompute_counterexample :
    ((generateEnvUpdate (AdsrEnvelope.new 0) (AdsrEnvelope.new 0) 44100
        { amp_attack := { state := 0, target := 1 }
          amp_decay := { state := 0, target := 0 }
          amp_sustain := { state := 0, target := 0 }
          amp_release := { state := 0, target := 0 }
          filter_attack := { state := 0, target := 0 }
          filter_decay := { state := 0, target := 0 }
          filter_sustain := { state := 0, target := 0 }
          filter_release := { state := 0, target := 0 } }).1).params.attack_rate = 0.1
    ∧ ((generateEnvUpdate
        ((generateEnvUpdate (AdsrEnvelope.new 0) (AdsrEnvelope.new 0) 44100
          { amp_attack := { state := 0, target := 1 }
            amp_decay := { state := 0, target := 0 }
            amp_sustain := { state := 0, target := 0 }
            amp_release := { state := 0, target := 0 }
            filter_attack := { state := 0, target := 0 }
            filter_decay := { state := 0, target := 0 }
            filter_sustain := { state := 0, target := 0 }
            filter_release := { state := 0, target := 0 } }).1)
        (AdsrEnvelope.new 0) 44100
        ((generateEnvUpdate (AdsrEnvelope.new 0) (AdsrEnvelope.new 0) 44100
          { amp_attack := { state := 0, target := 1 }
            amp_decay := { state := 0, target := 0 }
            amp_sustain := { state := 0, target := 0 }
            amp_release := { state := 0, target := 0 }
            filter_attack := { state := 0, target := 0 }
            filter_decay := { state := 0, target := 0 }
            filter_sustain := { state := 0, target := 0 }
            filter_release := { state := 0, target := 0 } }).2.2)).1).params.attack_rate
      = 0.19
    ∧ (0.19 : ℝ) ≠ 0.1 := by
  refine ⟨?_, ?_, by norm_num⟩
  · simp only [generateEnvUpdate, Smoothed.get, FILTER_FACTOR,
      Synja.AdsrEnvelope.set_envelope_parameters]
    norm_num
  · simp only [generateEnvUpdate, Smoothed.get, FILTER_FACTOR,
      Synja.AdsrEnvelope.set_envelope_parameters]
    norm_num

end SynjaLegacy

namespace Synja

/-- The early-`return` path of the allocation scan: it fires exactly on
the first non-playing index of the scanned range. -/
theorem scanLoop_range'_inr (pl de : ℕ → Bool) (st : ℕ → ℚ) :
    ∀ (n s : ℕ) (acc : ScanAcc) (k : ℕ),
      scanLoop pl de st (List.range' s n) acc = .inr k →
      s ≤ k ∧ k < s + n ∧ pl k = false ∧ ∀ j, s ≤ j → j < k → pl j = true := by
  intro n
  induction n with
  | zero =>
      intro s acc k h
      simp [scanLoop] at h
  | succ n ih =>
      intro s acc k h
      rw [List.range'_succ] at h
      simp only [scanLoop] at h
      by_cases hs : pl s
      · rw [if_neg (by simp [hs])] at h
        obtain ⟨h1, h2, h3, h4⟩ := ih (s + 1) _ k h
        refine ⟨by omega, by omega, h3, ?_⟩
        intro j hj1 hj2
        by_cases hjs : j = s
        · rw [hjs]; exact hs
        · exact h4 j (by omega) hj2
      · rw [if_pos (by simp [hs])] at h
        cases h
        refine ⟨le_rfl, by omega, by simp [hs], ?_⟩
        intro j hj1 hj2
        omega

/-- The scan when every index of the range is playing: the loop
completes, and the final accumulators track the oldest decaying and
oldest playing indices of the range (as strict running minima seeded by
`f64::MAX`). -/
theorem scanLoop_range'_inl (pl de : ℕ → Bool) (st : ℕ → ℚ) :
    ∀ (n s : ℕ) (acc : ScanAcc),
      (∀ i, s ≤ i → i < s + n → pl i = true) →
      ∃ acc', scanLoop pl de st (List.range' s n) acc = .inl acc'
        ∧ acc'.oldest_decaying_time ≤ acc.oldest_decaying_time
        ∧ (∀ j, s ≤ j → j < s + n → de j = true →
            acc'.oldest_decaying_time ≤ st j)
        ∧ ((acc'.oldest_decaying_voice = acc.oldest_decaying_voice
              ∧ acc'.oldest_decaying_time = acc.oldest_decaying_time)
            ∨ ∃ j, s ≤ j ∧ j < s + n ∧ de j = true
                ∧ acc'.oldest_decaying_voice = some j
                ∧ acc'.oldest_decaying_time = st j)
        ∧ ((∃ j, s ≤ j ∧ j < s + n ∧ de j = true ∧ st j < acc.oldest_decaying_time) →
            acc'.oldest_decaying_time < acc.oldest_decaying_time)
        ∧ acc'.oldest_playing_time ≤ acc.oldest_playing_time
        ∧ (∀ j, s ≤ j → j < s + n → acc'.oldest_playing_time ≤ st j)
        ∧ ((acc'.oldest_playing_voice = acc.oldest_playing_voice
              ∧ acc'.oldest_playing_time = acc.oldest_playing_time)
            ∨ ∃ j, s ≤ j ∧ j < s + n
                ∧ acc'.oldest_playing_voice = j
                ∧ acc'.oldest_playing_time = st j)
        ∧ ((∃ j, s ≤ j ∧ j < s + n ∧ st j < acc.oldest_playing_time) →
            acc'.oldest_playing_time < acc.oldest_playing_time) := by
  intro n
  induction n with
  | zero =>
      intro s acc _
      refine ⟨acc, by simp [scanLoop], le_rfl, ?_, Or.inl ⟨rfl, rfl⟩, ?_, le_rfl, ?_,
        Or.inl ⟨rfl, rfl⟩, ?_⟩
      · intro j h1 h2
        omega
      · rintro ⟨j, h1, h2, -⟩
        omega
      · intro j h1 h2
        omega
      · rintro ⟨j, h1, h2, -⟩
        omega
  | succ n ih =>
      intro s acc hpl
      rw [List.range'_succ]
      simp only [scanLoop]
      rw [if_neg (by simp [hpl s le_rfl (by omega)])]
      set acc1 := acc.step s (de s) (st s) with hacc1
      obtain ⟨acc', hrun, d1, d2, d3, d4, p1, p2, p3, p4⟩ :=
        ih (s + 1) acc1 (fun i h1 h2 => hpl i (by omega) (by omega))
      -- relate acc1 to acc
      have hstep_d :
          (acc1.oldest_decaying_voice = acc.oldest_decaying_voice
            ∧ acc1.oldest_decaying_time = acc.oldest_decaying_time
            ∧ ¬(de s = true ∧ st s < acc.oldest_decaying_time))
          ∨ (acc1.oldest_decaying_voice = some s ∧ acc1.oldest_decaying_time = st s
            ∧ de s = true ∧ st s < acc.oldest_decaying_time) := by
        rw [hacc1]
        simp only [ScanAcc.step]
        by_cases hd : de s = true ∧ st s < acc.oldest_decaying_time
        · rw [if_pos hd]
          right
          split_ifs <;> exact ⟨rfl, rfl, hd.1, hd.2⟩
        · rw [if_neg hd]
          left
          split_ifs <;> exact ⟨rfl, rfl, hd⟩
      have hstep_p :
          (acc1.oldest_playing_voice = acc.oldest_playing_voice
            ∧ acc1.oldest_playing_time = acc.oldest_playing_time
            ∧ ¬(st s < acc.oldest_playing_time))
          ∨ (acc1.oldest_playing_voice = s ∧ acc1.oldest_playing_time = st s
            ∧ st s < acc.oldest_playing_time) := by
      -- the playing tracker's threshold is unchanged by the decaying update
        have hmid : (if de s = true ∧ st s < acc.oldest_decaying_time then
            { acc with oldest_decaying_voice := some s,
                       oldest_decaying_time := st s }
            else acc).oldest_playing_time = acc.oldest_playing_time := by
          split_ifs <;> rfl
        have hmidv : (if de s = true ∧ st s < acc.oldest_decaying_time then
            { acc with oldest_decaying_voice := some s,
                       oldest_decaying_time := st s }
            else acc).oldest_playing_voice = acc.oldest_playing_voice := by
          split_ifs <;> rfl
        rw [hacc1]
        simp only [ScanAcc.step]
        by_cases hp : st s < acc.oldest_playing_time
        · rw [if_pos (by rw [hmid]; exact hp)]
          right
          exact ⟨rfl, rfl, hp⟩
        · rw [if_neg (by rw [hmid]; exact hp)]
          left
          exact ⟨hmidv, hmid, hp⟩
      refine ⟨acc', hrun, ?_, ?_, ?_, ?_, ?_, ?_, ?_, ?_⟩
      · rcases hstep_d with ⟨-, he, -⟩ | ⟨-, he, -, hlt⟩
        · rw [he] at d1; exact d1
        · rw [he] at d1; exact le_of_lt (lt_of_le_of_lt d1 hlt)
      · intro j h1 h2 hde
        by_cases hjs : j = s
        · subst hjs
          rcases hstep_d with ⟨-, he, hno⟩ | ⟨-, he, -, -⟩
          · rw [he] at d1
            push_neg at hno
            exact le_trans d1 (hno hde)
          · rw [he] at d1; exact d1
        · exact d2 j (by omega) (by omega) hde
      · rcases hstep_d with ⟨hv, he, -⟩ | ⟨hv, he, hde, -⟩
        · rcases d3 with ⟨hv', he'⟩ | ⟨j, h1, h2, h3, h4, h5⟩
          · exact Or.inl ⟨hv.symm ▸ hv', he.symm ▸ he'⟩
          · exact Or.inr ⟨j, by omega, by omega, h3, h4, h5⟩
        · rcases d3 with ⟨hv', he'⟩ | ⟨j, h1, h2, h3, h4, h5⟩
          · exact Or.inr ⟨s, le_rfl, by omega, hde, hv ▸ hv', he ▸ he'⟩
          · exact Or.inr ⟨j, by omega, by omega, h3, h4, h5⟩
      · rintro ⟨j, h1, h2, hde, hlt⟩
        by_cases hjs : j = s
        · subst hjs
          rcases hstep_d with ⟨-, he, hno⟩ | ⟨-, he, -, hlt'⟩
          · exact absurd ⟨hde, hlt⟩ hno
          · rw [he] at d1; exact lt_of_le_of_lt d1 hlt'
        · rcases hstep_d with ⟨-, he, -⟩ | ⟨-, he, -, hlt'⟩
          · rw [← he] at hlt ⊢
            exact d4 ⟨j, by omega, by omega, hde, hlt⟩
          · rw [he] at d1; exact lt_of_le_of_lt d1 hlt'
      · rcases hstep_p with ⟨-, he, -⟩ | ⟨-, he, hlt⟩
        · rw [he] at p1; exact p1
        · rw [he] at p1; exact le_of_lt (lt_of_le_of_lt p1 hlt)
      · intro j h1 h2
        by_cases hjs : j = s
        · subst hjs
          rcases hstep_p with ⟨-, he, hno⟩ | ⟨-, he, -⟩
          · rw [he] at p1
            push_neg at hno
            exact le_trans p1 hno
          · rw [he] at p1; exact p1
        · exact p2 j (by omega) (by omega)
      · rcases hstep_p with ⟨hv, he, -⟩ | ⟨hv, he, -⟩
        · rcases p3 with ⟨hv', he'⟩ | ⟨j, h1, h2, h3, h4⟩
          · exact Or.inl ⟨hv.symm ▸ hv', he.symm ▸ he'⟩
          · exact Or.inr ⟨j, by omega, by omega, h3, h4⟩
        · rcases p3 with ⟨hv', he'⟩ | ⟨j, h1, h2, h3, h4⟩
          · exact Or.inr ⟨s, le_rfl, by omega, hv ▸ hv', he ▸ he'⟩
          · exact Or.inr ⟨j, by omega, by omega, h3, h4⟩
      · rintro ⟨j, h1, h2, hlt⟩
        by_cases hjs : j = s
        · subst hjs
          rcases hstep_p with ⟨-, he, hno⟩ | ⟨-, he, hlt'⟩
          · exact absurd hlt hno
          · rw [he] at p1; exact lt_of_le_of_lt p1 hlt'
        · rcases hstep_p with ⟨-, he, -⟩ | ⟨-, he, hlt'⟩
          · rw [← he] at hlt ⊢
            exact p4 ⟨j, by omega, by omega, hlt⟩
          · rw [he] at p1; exact lt_of_le_of_lt p1 hlt'

/-- If the scan completed without the early return, every scanned index
was playing. -/
theorem scanLoop_range'_inl_all_playing (pl de : ℕ → Bool) (st : ℕ → ℚ) :
    ∀ (n s : ℕ) (acc : ScanAcc) (acc' : ScanAcc),
      scanLoop pl de st (List.range' s n) acc = .inl acc' →
      ∀ j, s ≤ j → j < s + n → pl j = true := by
  intro n
  induction n with
  | zero =>
      intro s acc acc' _ j h1 h2
      omega
  | succ n ih =>
      intro s acc acc' h j h1 h2
      rw [List.range'_succ] at h
      simp only [scanLoop] at h
      by_cases hs : pl s
      · rw [if_neg (by simp [hs])] at h
        by_cases hjs : j = s
        · rw [hjs]; exact hs
        · exact ih (s + 1) _ acc' h j (by omega) (by omega)
      · rw [if_pos (by simp [hs])] at h
        cases h

/-- C1: polyphonic `note_on` policy.  There is a voice index `k` on
which `Voice::note_on` is invoked (all other voices are untouched),
and: if some voice is idle, `k` is the lowest-indexed idle voice; else
if some busy voice is Decaying, `k` is a Decaying voice with the
smallest start timestamp (stolen in preference to any newer
non-Decaying voice); else `k` has the smallest start timestamp
overall. -/
theorem voice_allocation_policy (voices : List Voice) (dflt : Voice)
    (note velocity : ℕ) (time : ℚ) (unison : ℕ) (lfo_trig : Bool)
    (start_phases : ℕ → ℝ) (now : ℝ)
    (hne : voices ≠ [])
    (hmax : ∀ v ∈ voices, v.start_time < f64MAX) :
    ∃ k, k < voices.length
      ∧ Synth.note_on voices note velocity time unison lfo_trig start_phases now
          = voices.set k
              ((voices.getD k dflt).note_on note velocity time unison lfo_trig
                start_phases now)
      ∧ ((∃ i, i < voices.length ∧ (voices.getD i dflt).is_playing = false) →
          (voices.getD k dflt).is_playing = false
          ∧ ∀ j, j < k → (voices.getD j dflt).is_playing = true)
      ∧ ((∀ i, i < voices.length → (voices.getD i dflt).is_playing = true) →
        (∃ i, i < voices.length
            ∧ (voices.getD i dflt).amp_envelope.is_decaying = true) →
          (voices.getD k dflt).amp_envelope.is_decaying = true
          ∧ ∀ j, j < voices.length →
              (voices.getD j dflt).amp_envelope.is_decaying = true →
              (voices.getD k dflt).start_time ≤ (voices.getD j dflt).start_time)
      ∧ ((∀ i, i < voices.length → (voices.getD i dflt).is_playing = true) →
          (∀ i, i < voices.length →
            (voices.getD i dflt).amp_envelope.is_decaying = false) →
          ∀ j, j < voices.length →
              (voices.getD k dflt).start_time ≤ (voices.getD j dflt).start_time) := by
  have hget : ∀ i, i < voices.length → voices.get? i = some (voices.getD i dflt) := by
    intro i hi
    rw [List.get?_eq_get hi, List.getD_eq_getElem?_getD, List.getElem?_eq_getElem hi]
    rfl
  have hplD : ∀ i, i < voices.length →
      ((voices.get? i).map Voice.is_playing).getD true = (voices.getD i dflt).is_playing := by
    intro i hi
    rw [hget i hi]
    rfl
  have hdeD : ∀ i, i < voices.length →
      ((voices.get? i).map (fun v => v.amp_envelope.is_decaying)).getD false
        = (voices.getD i dflt).amp_envelope.is_decaying := by
    intro i hi
    rw [hget i hi]
    rfl
  have hstD : ∀ i, i < voices.length →
      ((voices.get? i).map Voice.start_time).getD 0 = (voices.getD i dflt).start_time := by
    intro i hi
    rw [hget i hi]
    rfl
  have hstMax : ∀ i, i < voices.length →
      ((voices.get? i).map Voice.start_time).getD 0 < f64MAX := by
    intro i hi
    rw [hstD i hi]
    have hmem : voices.getD i dflt ∈ voices := by
      rw [List.getD_eq_getElem?_getD, List.getElem?_eq_getElem hi]
      exact List.get_mem voices i hi
    exact hmax _ hmem
  have hlen : 0 < voices.length := List.length_pos.mpr hne
  have hrange : List.range voices.length = List.range' 0 voices.length :=
    List.range_eq_range' voices.length
  rcases hscan : scanLoop (fun i => ((voices.get? i).map Voice.is_playing).getD true)
      (fun i => ((voices.get? i).map (fun v => v.amp_envelope.is_decaying)).getD false)
      (fun i => ((voices.get? i).map Voice.start_time).getD 0)
      (List.range voices.length) ScanAcc.init with acc | k
  · -- the loop completed: every voice is playing; steal.
    have hscan' : scanLoop (fun i => ((voices.get? i).map Voice.is_playing).getD true)
        (fun i => ((voices.get? i).map (fun v => v.amp_envelope.is_decaying)).getD false)
        (fun i => ((voices.get? i).map Voice.start_time).getD 0)
        (List.range' 0 voices.length) ScanAcc.init = .inl acc := by
      rw [← hrange]
      exact hscan
    have hAllPl : ∀ j, j < voices.length →
        ((voices.get? j).map Voice.is_playing).getD true = true := by
      intro j hj
      exact scanLoop_range'_inl_all_playing _ _ _ voices.length 0 ScanAcc.init acc hscan' j
        (by omega) (by omega)
    obtain ⟨acc', hrun, d1, d2, d3, d4, p1, p2, p3, p4⟩ :=
      scanLoop_range'_inl
        (fun i => ((voices.get? i).map Voice.is_playing).getD true)
        (fun i => ((voices.get? i).map (fun v => v.amp_envelope.is_decaying)).getD false)
        (fun i => ((voices.get? i).map Voice.start_time).getD 0)
        voices.length 0 ScanAcc.init (fun i h1 h2 => hAllPl i (by omega))
    rw [hscan'] at hrun
    have hacc : acc = acc' := by
      injection hrun
    subst hacc
    rcases hodv : acc.oldest_decaying_voice with _ | j
    · -- no decaying voice tracked: steal the oldest playing voice.
      have hoptlt : acc.oldest_playing_time < ScanAcc.init.oldest_playing_time := by
        apply p4
        exact ⟨0, le_rfl, by omega, hstMax 0 hlen⟩
      rcases p3 with ⟨-, he⟩ | ⟨j, hj0, hj1, hjv, hjt⟩
      · rw [he] at hoptlt
        exact absurd hoptlt (lt_irrefl _)
      have hsteal : stealTarget acc = acc.oldest_playing_voice := by
        simp [stealTarget, hodv]
      refine ⟨acc.oldest_playing_voice, by omega, ?_, ?_, ?_, ?_⟩
      · simp only [Synth.note_on]
        rw [hscan, if_neg (show ¬(false = true) by decide)]
        simp only []
        rw [hsteal]
        rw [hget acc.oldest_playing_voice (by omega)]
      · rintro ⟨i, hi, hidle⟩
        rw [← hplD i hi, hAllPl i hi] at hidle
        simp at hidle
      · intro _ hdec
        exfalso
        obtain ⟨i, hi, hideci⟩ := hdec
        have hlt : acc.oldest_decaying_time < ScanAcc.init.oldest_decaying_time := by
          apply d4
          exact ⟨i, by omega, by omega, by rw [hdeD i hi]; exact hideci, hstMax i hi⟩
        rcases d3 with ⟨-, he⟩ | ⟨j2, hj02, hj12, hjde2, hjv2, hjt2⟩
        · rw [he] at hlt
          exact absurd hlt (lt_irrefl _)
        · rw [hodv] at hjv2
          cases hjv2
      · intro _ _ j2 hj2
        have h2 := p2 j2 (by omega) (by omega)
        rw [hstD j2 hj2] at h2
        rw [hjv, ← hstD j (by omega), ← hjt]
        exact h2
    · -- a decaying voice was tracked: it is stolen.
      rcases d3 with ⟨hv, -⟩ | ⟨j2, hj02, hj12, hjde2, hjv2, hjt2⟩
      · rw [hodv] at hv
        cases hv
      have hjj : j2 = j := by
        rw [hodv] at hjv2
        injection hjv2 with h
        exact h.symm
      subst hjj
      have hsteal : stealTarget acc = j2 := by
        simp [stealTarget, hodv]
      refine ⟨j2, by omega, ?_, ?_, ?_, ?_⟩
      · simp only [Synth.note_on]
        rw [hscan, if_neg (show ¬(false = true) by decide)]
        simp only []
        rw [hsteal]
        rw [hget j2 (by omega)]
      · rintro ⟨i, hi, hidle⟩
        rw [← hplD i hi, hAllPl i hi] at hidle
        simp at hidle
      · intro _ _
        constructor
        · rw [← hdeD j2 (by omega)]
          exact hjde2
        · intro j3 hj3 hdec3
          have h2 := d2 j3 (by omega) (by omega) (by rw [hdeD j3 hj3]; exact hdec3)
          rw [hstD j3 hj3] at h2
          rw [← hstD j2 (by omega), ← hjt2]
          exact h2
      · intro _ hNone
        exfalso
        have := hNone j2 (by omega)
        rw [← hdeD j2 (by omega)] at this
        rw [this] at hjde2
        cases hjde2
  · -- early return: the first idle voice is assigned.
    have hscan' : scanLoop (fun i => ((voices.get? i).map Voice.is_playing).getD true)
        (fun i => ((voices.get? i).map (fun v => v.amp_envelope.is_decaying)).getD false)
        (fun i => ((voices.get? i).map Voice.start_time).getD 0)
        (List.range' 0 voices.length) ScanAcc.init = .inr k := by
      rw [← hrange]
      exact hscan
    obtain ⟨hk0, hk1, hkidle, hkfirst⟩ :=
      scanLoop_range'_inr _ _ _ voices.length 0 ScanAcc.init k hscan'
    refine ⟨k, by omega, ?_, ?_, ?_, ?_⟩
    · simp only [Synth.note_on]
      rw [hscan, if_neg (show ¬(false = true) by decide)]
      simp only []
      rw [hget k (by omega)]
    · intro _
      constructor
      · rw [← hplD k (by omega)]
        exact hkidle
      · intro j hj
        rw [← hplD j (by omega)]
        exact hkfirst j (by omega) hj
    · intro hAll _
      exfalso
      have := hAll k (by omega)
      rw [← hplD k (by omega)] at this
      rw [this] at hkidle
      cases hkidle
    · intro hAll _
      exfalso
      have := hAll k (by omega)
      rw [← hplD k (by omega)] at this
      rw [this] at hkidle
      cases hkidle

end Synja


namespace Synja

/-- Witness for C1: on a pool of three busy voices (Sustaining at time
5, Decaying at time 3, Decaying at time 7), `note_on` picks a voice
that is Decaying with the minimal start time. -/
theorem voice_allocation_policy_witness :
    ∃ k, k < ([testVoice .Sustaining 5, testVoice .Decaying 3,
        testVoice .Decaying 7] : List Voice).length
      ∧ (([testVoice .Sustaining 5, testVoice .Decaying 3,
          testVoice .Decaying 7] : List Voice).getD k
            (testVoice .Idle 0)).amp_envelope.is_decaying = true
      ∧ ∀ j, j < ([testVoice .Sustaining 5, testVoice .Decaying 3,
            testVoice .Decaying 7] : List Voice).length →
          (([testVoice .Sustaining 5, testVoice .Decaying 3,
            testVoice .Decaying 7] : List Voice).getD j
              (testVoice .Idle 0)).amp_envelope.is_decaying = true →
          (([testVoice .Sustaining 5, testVoice .Decaying 3,
            testVoice .Decaying 7] : List Voice).getD k
              (testVoice .Idle 0)).start_time
            ≤ (([testVoice .Sustaining 5, testVoice .Decaying 3,
              testVoice .Decaying 7] : List Voice).getD j
                (testVoice .Idle 0)).start_time := by
  obtain ⟨k, hk, -, -, hdec, -⟩ :=
    voice_allocation_policy
      [testVoice .Sustaining 5, testVoice .Decaying 3, testVoice .Decaying 7]
      (testVoice .Idle 0) 60 100 9 1 false (fun _ => 0) 0
      (by simp)
      (by
        intro v hv
        fin_cases hv <;> simp [testVoice] <;> norm_num [f64MAX])
  obtain ⟨h1, h2⟩ := hdec (by decide) ⟨1, by norm_num, by decide⟩
  exact ⟨k, hk, h1, h2⟩

end Synja

namespace SynjaLegacy

/-- A second legacy `Voice::note_on` with identical arguments is a
no-op: the oscillator banks already have the requested unison size, and
every other field is overwritten with the same value. -/
theorem legacy_note_on_idem (v : Voice) (note velocity : ℕ) (time : ℚ)
    (unison : ℕ) (lfo_trig : Bool) (bufLen : ℕ) (f1 f2 : ℕ → ℝ) (now : ℝ) :
    (v.note_on note velocity time unison lfo_trig bufLen f1 f2 now).note_on
        note velocity time unison lfo_trig bufLen f1 f2 now
      = v.note_on note velocity time unison lfo_trig bufLen f1 f2 now := by
  by_cases h : v.osc1.length ≠ unison <;> cases lfo_trig <;>
    simp [Voice.note_on, h, Synja.Oscillator.trig, Synja.AdsrEnvelope.gate_on]

/-- C8: in monophonic mode every `note_on` retriggers voice 0 — the
resulting pool equals the original with voice 0 replaced by its
`note_on` image (the source's fall-through `match` retriggers voice 0 a
second time, which collapses by idempotence), and every other voice is
untouched. -/
theorem mono_note_on_retriggers_voice0 (voices : List Voice) (dflt : Voice)
    (note velocity : ℕ) (time : ℚ) (unison : ℕ) (lfo_trig : Bool) (bufLen : ℕ)
    (f1 f2 : ℕ → ℝ) (now : ℝ) (hne : 0 < voices.length) :
    Synth.note_on voices true note velocity time unison lfo_trig bufLen f1 f2 now
      = voices.set 0 ((voices.getD 0 dflt).note_on note velocity time unison lfo_trig
          bufLen f1 f2 now)
    ∧ ∀ j, j ≠ 0 →
        (Synth.note_on voices true note velocity time unison lfo_trig bufLen f1 f2
            now).get? j
          = voices.get? j := by
  have hget0 : voices.get? 0 = some (voices.getD 0 dflt) := by
    rw [List.get?_eq_get hne, List.getD_eq_getElem?_getD, List.getElem?_eq_getElem hne]
    rfl
  have hmain : Synth.note_on voices true note velocity time unison lfo_trig bufLen f1 f2 now
      = voices.set 0 ((voices.getD 0 dflt).note_on note velocity time unison lfo_trig
          bufLen f1 f2 now) := by
    simp only [Synth.note_on]
    rw [if_pos trivial]
    rw [show Synja.stealTarget Synja.ScanAcc.init = 0 from rfl]
    rw [hget0]
    simp only []
    rw [List.get?_set_eq_of_lt _ hne]
    simp only []
    rw [List.set_set]
    rw [legacy_note_on_idem]
  refine ⟨hmain, ?_⟩
  intro j hj
  rw [hmain]
  exact List.get?_set_ne _ _ (Ne.symm hj)

end SynjaLegacy

namespace SynjaLegacy

/-- Witness for C8: on a concrete two-voice legacy pool, a mono-mode
`note_on` replaces voice 0 with its retriggered image and leaves voice 1
untouched. -/
theorem mono_note_on_retriggers_voice0_witness :
    Synth.note_on [testVoice .Sustaining 5, testVoice .Decaying 3] true 60 100 9 1
        false 2 (fun _ => 0) (fun _ => 0) 0
      = [(testVoice .Sustaining 5).note_on 60 100 9 1 false 2 (fun _ => 0)
          (fun _ => 0) 0,
         testVoice .Decaying 3] := by
  have h := mono_note_on_retriggers_voice0
    [testVoice .Sustaining 5, testVoice .Decaying 3] (testVoice .Idle 0)
    60 100 9 1 false 2 (fun _ => 0) (fun _ => 0) 0 (by norm_num)
  rw [h.1]
  rfl

end SynjaLegacy
